import Mathlib

/-!
Verification development for the geospatial sweep & deduplicating collector
(`functions.py`).  The Python source is embedded shallowly:

* pure helpers (`likely_music_studio`, `should_exclude`, `calculate_distance`,
  `backoff_sleep`) become Lean functions over `String`/`ℚ`;
* the HTTP client (`nearby_search`) is modelled over an attempt-indexed
  transport oracle `Nat → Except String SearchResponse`; a transport value
  `.error e` models a `requests` exception (connection failure or
  `raise_for_status`), `.ok d` models a decoded JSON body;
* the sweep orchestrator (`collect_for_state`) is modelled as explicit state
  passing over a `RunState`, with the upstream service abstracted as a
  deterministic environment `UpEnv` mapping each query to the outcome the
  orchestrator observes from the client (the client-internal retries are
  modelled separately at the client level);
* Python `float` arithmetic is idealised as exact rational arithmetic, and the
  single `math.sqrt` comparison is embedded squared: for `s ≥ 0`,
  `Real.sqrt s < d` holds exactly when `0 < d ∧ s < d*d`;
* the destination sheet append, as invoked from the orchestrator, is modelled
  as a reliable accumulating list; the retry/chunking logic of
  `append_rows_with_retry` is embedded separately at its own level.
-/

/-- Does `needle` start the haystack?  Auxiliary for the substring test. -/
def headMatches : List Char → List Char → Bool
  | [], _ => true
  | _ :: _, [] => false
  | a :: as, b :: bs => a == b && headMatches as bs

/-- Does `needle` occur contiguously in the haystack?  Models the Python
string operator `needle in hay` (an empty needle occurs in everything). -/
def occursIn (needle : List Char) : List Char → Bool
  | [] => headMatches needle []
  | b :: rest => headMatches needle (b :: rest) || occursIn needle rest

/-- Python `sub in s` on strings. -/
def strContains (hay needle : String) : Bool :=
  occursIn needle.toList hay.toList

/-- An ASCII whitespace character (the characters `str.strip()` removes for
the names this program sees). -/
def isSpaceChar (c : Char) : Bool :=
  c = ' ' || c = '\t' || c = '\n' || c = '\r'

/-- Python `str.strip()` (ASCII whitespace). -/
def pyStrip (s : String) : String :=
  ⟨((s.toList.dropWhile isSpaceChar).reverse.dropWhile isSpaceChar).reverse⟩

/-- Lowercase an ASCII letter, leave everything else unchanged. -/
def lowerChar (c : Char) : Char :=
  if 'A' ≤ c ∧ c ≤ 'Z' then Char.ofNat (c.toNat + 32) else c

/-- Python `str.lower()` (ASCII). -/
def pyLower (s : String) : String :=
  ⟨s.toList.map lowerChar⟩

/-- Embeds `INCLUDE_HINTS` (functions.py line 135). -/
def INCLUDE_HINTS : List String :=
  ["record", "mix", "master", "audio", "music", "studio", "recording"]

/-- Embeds `EXCLUDE_IF_NAME_CONTAINS` (functions.py lines 136-139). -/
def EXCLUDE_IF_NAME_CONTAINS : List String :=
  ["tattoo", "yoga", "pilates", "dance", "photo", "photography",
   "fitness", "crossfit", "martial", "hair", "salon", "nail"]

/-- The positive-override token list written inline in `collect_for_state`
(functions.py line 562). -/
def OVERRIDE_TOKENS : List String :=
  ["record", "mix", "master", "audio", "music", "recording"]

/-- Embeds `likely_music_studio` (functions.py lines 238-249), on the already
lowercased name. -/
def likely_music_studio (name_lower : String) : Bool :=
  if name_lower = "" then false
  else if strContains name_lower "studio"
          && INCLUDE_HINTS.any (fun h => strContains name_lower h) then true
  else if strContains name_lower "recording" then true
  else if (["music", "audio", "mix", "master"] : List String).any
            (fun h => strContains name_lower h) then true
  else false

/-- Embeds `should_exclude` (functions.py lines 252-253). -/
def should_exclude (name_lower : String) : Bool :=
  EXCLUDE_IF_NAME_CONTAINS.any (fun bad => strContains name_lower bad)

/-- The inline override test of functions.py line 562:
`any(h in name_lower for h in ["record","mix","master","audio","music","recording"])`. -/
def overrideAny (name_lower : String) : Bool :=
  OVERRIDE_TOKENS.any (fun h => strContains name_lower h)

/-- The complete accept decision applied by `collect_for_state` to a hit's
lowercased name (functions.py lines 562-565): the hit survives when it is not
(excluded without an override token) and `likely_music_studio` holds. -/
def acceptName (name_lower : String) : Bool :=
  !(should_exclude name_lower && !overrideAny name_lower)
    && likely_music_studio name_lower

/-- A raw nearby-search hit: `place_id` may be absent (or empty, which Python
treats as falsy), `name` may be any string (`res.get("name") or ""`). -/
structure RawHit where
  place_id : Option String
  name : String
deriving DecidableEq, Repr

/-- A decoded nearby-search response body: `status`, `results`, and the
optional `next_page_token`. -/
structure SearchResponse where
  status : String
  results : List RawHit
  next_page_token : Option String
deriving DecidableEq, Repr

/-- Embeds `backoff_sleep` (functions.py lines 186-189): duration slept before the
next attempt, `base^(attempt-1) + 0.25*attempt` with `base = 1.7`. -/
def backoff_sleep (attempt : Nat) : ℚ :=
  (17 / 10 : ℚ) ^ (attempt - 1) + (1 / 4 : ℚ) * attempt

/-- Statuses retried by `nearby_search` (functions.py line 213). -/
def isTransientStatus (s : String) : Bool :=
  s = "OVER_QUERY_LIMIT" || s = "RESOURCE_EXHAUSTED" || s = "UNKNOWN_ERROR"

/-- Statuses `nearby_search` returns immediately as success
(functions.py line 211). -/
def isSearchSuccess (s : String) : Bool :=
  s = "OK" || s = "ZERO_RESULTS"

instance exceptDecEq {ε α : Type} [DecidableEq ε] [DecidableEq α] :
    DecidableEq (Except ε α)
  | .error a, .error b =>
    if h : a = b then .isTrue (by rw [h]) else .isFalse (by simp [h])
  | .error _, .ok _ => .isFalse (by simp)
  | .ok _, .error _ => .isFalse (by simp)
  | .ok a, .ok b =>
    if h : a = b then .isTrue (by rw [h]) else .isFalse (by simp [h])

/-- Outcome of one `nearby_search` invocation: the value returned to the
caller (or the propagated transport exception), the number of HTTP requests
issued, and the durations slept between attempts, in order. -/
structure NSRun where
  result : Except String SearchResponse
  httpCalls : Nat
  sleeps : List ℚ
deriving DecidableEq, Repr

/-- The retry loop of `nearby_search` (functions.py lines 206-218).
`transport n` is the outcome of the HTTP request made on attempt `n`
(`.error` models a `requests` exception, which the source does not catch);
`fuel` counts the remaining attempts of `range(1, 7)`. -/
def nsGo (transport : Nat → Except String SearchResponse) :
    Nat → Nat → NSRun
  | _, 0 => ⟨.ok ⟨"FAILED", [], none⟩, 0, []⟩
  | attempt, fuel + 1 =>
    match transport attempt with
    | .error e => ⟨.error e, 1, []⟩
    | .ok d =>
      if isSearchSuccess d.status then ⟨.ok d, 1, []⟩
      else if isTransientStatus d.status then
        let rest := nsGo transport (attempt + 1) fuel
        ⟨rest.result, rest.httpCalls + 1, backoff_sleep attempt :: rest.sleeps⟩
      else ⟨.ok d, 1, []⟩

/-- Embeds `nearby_search` (functions.py lines 192-218), modelled from the first
attempt with the 6-attempt budget. -/
def nearby_search (transport : Nat → Except String SearchResponse) : NSRun :=
  nsGo transport 1 6

/-- Embeds `fetch_details` outcome as observed by the orchestrator: `.ok ()` models a
returned dictionary (its fields only feed row columns that never influence
control flow), `.error` models a propagated `requests` exception. -/
abbrev DetailOutcome := Except String Unit

/-- A nearby-search query as issued by `collect_for_state`: location
coordinates, the keyword, and the optional continuation `pagetoken`
(radius and the API key never vary within a run and are omitted). -/
structure SQuery where
  lat : ℚ
  lng : ℚ
  keyword : String
  pagetoken : Option String
deriving DecidableEq, Repr

/-- The upstream environment seen by the orchestrator: what the client calls
`nearby_search` / `fetch_details` return for a given query, with `.error`
modelling an exception escaping the client (transport failure). Modelling the
environment as a function makes responses deterministic per query, which is
how "a second run receives upstream responses identical to the first run's"
is rendered. -/
structure UpEnv where
  search : SQuery → Except String SearchResponse
  detail : String → DetailOutcome

/-- A destination row, reduced to the fields that influence control flow or
that the claims inspect.  The remaining columns of `HEADERS` (address, city,
zip, website, phone, email, maps_url, lat, lng) are data passed through from
the detail response and never read back by the sweep. -/
structure Row where
  pid : String
  name : String
  keyword : String
  center_lat : ℚ
  center_lng : ℚ
deriving DecidableEq, Repr

/-- Embeds `place_id` column of a row list. -/
def pids (rows : List Row) : List String := rows.map Row.pid

/-- The configuration slice of `collect_for_state` that the embedded logic
reads.  `keywords` is the effective keyword list (after the keyword-strategy
preprocessing, which only rewrites this list); `flush_every` is
`FLUSH_EVERY_DEFAULT`; `csv_output` tells whether a local backup file was
opened; `cosDeg x` models `math.cos(math.radians x)`; `page_fuel` bounds the
pagination loop, which the source bounds only through the upstream's finite
token chains. -/
structure OConfig where
  keywords : List String
  stop_after_new : Option Nat
  skip_overlap_centers : Bool
  overlap_factor : ℚ
  radius_m : ℚ
  flush_every : Nat
  csv_output : Bool
  cosDeg : ℚ → ℚ
  page_fuel : Nat

/-- The mutable state of one `collect_for_state` run: the dedup ledger
`seen`, the rows appended to the destination tab so far (`sheetRows`), the
write buffer, the local CSV mirror and its open flag, the `total_requests`
counter, the pids passed to `fetch_details` in order (`detailTrace`), the
queries passed to `nearby_search` in order (`searchTrace`), and
`processed_centers`. -/
structure RunState where
  seen : Finset String
  sheetRows : List Row
  buffer : List Row
  csvRows : List Row
  csvOpen : Bool
  totalRequests : Nat
  detailTrace : List String
  searchTrace : List SQuery
  processed : List (ℚ × ℚ × Nat)
deriving DecidableEq

/-- Result of a sweep fragment: final state, the updated
`new_places_this_center` counter, and `.ok ()` or the escaping exception. -/
structure SweepOut where
  st : RunState
  newCount : Nat
  res : Except String Unit
deriving DecidableEq

/-- Result of a center step / the whole center loop. -/
structure CenterOut where
  st : RunState
  res : Except String Unit
deriving DecidableEq

/-- Embeds `RunResult`, reduced to the two computed fields (the region/tab fields are
constants copied from the inputs). -/
structure RunResult where
  added_count : Nat
  api_requests : Nat
deriving DecidableEq, Repr

/-- Python truthiness of `res.get("place_id")` (functions.py line 556-557):
`None` and the empty string are falsy. -/
def validPid : Option String → Option String
  | none => none
  | some p => if p = "" then none else some p

/-- Embeds `calculate_distance` (functions.py lines 280-285) without the final square
root: `dx*dx + dy*dy` in square meters, over exact rationals, with the cosine
supplied as an oracle. -/
def calculate_distance_sq (cosDeg : ℚ → ℚ) (lat1 lng1 lat2 lng2 : ℚ) : ℚ :=
  let dx := 111320 * cosDeg ((lat1 + lat2) / 2) * (lng2 - lng1)
  let dy := 111320 * (lat2 - lat1)
  dx * dx + dy * dy

/-- The comparison `calculate_distance(...) < d` (functions.py line 523),
embedded squared: for a nonnegative radicand `s`, `sqrt s < d` holds exactly
when `0 < d ∧ s < d*d`. -/
def dist_lt (cosDeg : ℚ → ℚ) (lat1 lng1 lat2 lng2 d : ℚ) : Bool :=
  decide (0 < d ∧ calculate_distance_sq cosDeg lat1 lng1 lat2 lng2 < d * d)

/-- Embeds `stop_after_new or 1` (functions.py line 521): Python `or` maps both
`None` and `0` to `1`. -/
def overlapMin (cfg : OConfig) : Nat :=
  match cfg.stop_after_new with
  | none => 1
  | some n => if n = 0 then 1 else n

/-- The overlap-pruning decision (functions.py lines 516-529): skip the
candidate center iff pruning is enabled and some previously processed center
with at least `overlapMin` new records lies closer than
`overlap_factor * radius_m`. -/
def shouldSkipCenter (cfg : OConfig) (processed : List (ℚ × ℚ × Nat))
    (clat clng : ℚ) : Bool :=
  cfg.skip_overlap_centers &&
    processed.any (fun pc =>
      decide (overlapMin cfg ≤ pc.2.2) &&
        dist_lt cfg.cosDeg clat clng pc.1 pc.2.1
          (cfg.overlap_factor * cfg.radius_m))

/-- Embeds `stop_after_new is not None and new_places_this_center >= stop_after_new`
(functions.py lines 537, 618, 623). -/
def capReached (cfg : OConfig) (n : Nat) : Bool :=
  match cfg.stop_after_new with
  | none => false
  | some s => decide (s ≤ n)

/-- Processing of one raw hit (functions.py lines 555-620): dedup check,
name filter, detail fetch, row construction, buffering, CSV mirror, and
threshold flush.  The flush (functions.py lines 612-615) moves the buffer to
`sheetRows`, modelling a successful `append_rows_with_retry`. -/
def hitStep (cfg : OConfig) (env : UpEnv) (kw : String) (clat clng : ℚ)
    (st : RunState) (n : Nat) (hit : RawHit) : SweepOut :=
  match validPid hit.place_id with
  | none => ⟨st, n, .ok ()⟩
  | some pid =>
    if pid ∈ st.seen then ⟨st, n, .ok ()⟩
    else
      let name_lower := pyLower (pyStrip hit.name)
      if !acceptName name_lower then ⟨st, n, .ok ()⟩
      else
        let st1 := { st with detailTrace := st.detailTrace ++ [pid] }
        match env.detail pid with
        | .error e => ⟨st1, n, .error e⟩
        | .ok _ =>
          let row : Row := ⟨pid, pyStrip hit.name, kw, clat, clng⟩
          let st2 := { st1 with
            buffer := st1.buffer ++ [row],
            seen := insert pid st1.seen,
            csvRows := if cfg.csv_output then st1.csvRows ++ [row]
                       else st1.csvRows }
          let st3 := if cfg.flush_every ≤ st2.buffer.length then
              { st2 with sheetRows := st2.sheetRows ++ st2.buffer, buffer := [] }
            else st2
          ⟨st3, n + 1, .ok ()⟩

/-- The `for res in results` loop (functions.py lines 555-620), with the
mid-loop break once the per-center cap is reached (line 618). -/
def hitsLoop (cfg : OConfig) (env : UpEnv) (kw : String) (clat clng : ℚ) :
    List RawHit → RunState → Nat → SweepOut
  | [], st, n => ⟨st, n, .ok ()⟩
  | hit :: rest, st, n =>
    let o := hitStep cfg env kw clat clng st n hit
    match o.res with
    | .error e => ⟨o.st, o.newCount, .error e⟩
    | .ok _ =>
      if capReached cfg o.newCount then ⟨o.st, o.newCount, .ok ()⟩
      else hitsLoop cfg env kw clat clng rest o.st o.newCount

/-- The `while True` pagination loop (functions.py lines 546-632).  On entry
`data` is the current page, `page_count` its 1-based index, `n` the running
`new_places_this_center`.  A page beyond the first reached with `n = 0` is
dropped unprocessed and pagination stops (lines 550-552); otherwise the hits
are processed, then the loop stops on cap or missing token (line 623), else
the continuation page is fetched (line 628) and the loop repeats.  `fuel`
bounds the recursion; the source relies on upstream token chains being
finite. -/
def pagesLoop (cfg : OConfig) (env : UpEnv) (kw : String) (clat clng : ℚ) :
    Nat → SearchResponse → Nat → RunState → Nat → SweepOut
  | fuel, data, page_count, st, n =>
    if 1 < page_count ∧ n = 0 then ⟨st, n, .ok ()⟩
    else
      let o := hitsLoop cfg env kw clat clng data.results st n
      match o.res with
      | .error e => ⟨o.st, o.newCount, .error e⟩
      | .ok _ =>
        if capReached cfg o.newCount then ⟨o.st, o.newCount, .ok ()⟩
        else
          match data.next_page_token with
          | none => ⟨o.st, o.newCount, .ok ()⟩
          | some tok =>
            match fuel with
            | 0 => ⟨o.st, o.newCount, .ok ()⟩
            | fuel' + 1 =>
              let q : SQuery := ⟨clat, clng, kw, some tok⟩
              let st1 := { o.st with searchTrace := o.st.searchTrace ++ [q] }
              match env.search q with
              | .error e => ⟨st1, o.newCount, .error e⟩
              | .ok data' =>
                let st2 := { st1 with totalRequests := st1.totalRequests + 1 }
                pagesLoop cfg env kw clat clng fuel' data' (page_count + 1)
                  st2 o.newCount

/-- One keyword at one center (functions.py lines 541-544): issue the initial
nearby search, count it, and enter the pagination loop at page 1. -/
def keywordStep (cfg : OConfig) (env : UpEnv) (clat clng : ℚ)
    (st : RunState) (n : Nat) (kw : String) : SweepOut :=
  let q : SQuery := ⟨clat, clng, kw, none⟩
  let st1 := { st with searchTrace := st.searchTrace ++ [q] }
  match env.search q with
  | .error e => ⟨st1, n, .error e⟩
  | .ok data =>
    let st2 := { st1 with totalRequests := st1.totalRequests + 1 }
    pagesLoop cfg env kw clat clng cfg.page_fuel data 1 st2 n

/-- The `for keyword in effective_keywords` loop (functions.py lines
535-632), with its top-of-body cap break (line 537). -/
def keywordsLoop (cfg : OConfig) (env : UpEnv) (clat clng : ℚ) :
    List String → RunState → Nat → SweepOut
  | [], st, n => ⟨st, n, .ok ()⟩
  | kw :: rest, st, n =>
    if capReached cfg n then ⟨st, n, .ok ()⟩
    else
      let o := keywordStep cfg env clat clng st n kw
      match o.res with
      | .error e => ⟨o.st, o.newCount, .error e⟩
      | .ok _ => keywordsLoop cfg env clat clng rest o.st o.newCount

/-- One candidate center (functions.py lines 514-636): overlap pruning gate,
keyword loop with `new_places_this_center` starting at 0, then recording of
the processed center.  A pruned center is skipped wholesale and not
recorded. -/
def centerStep (cfg : OConfig) (env : UpEnv) (st : RunState) (c : ℚ × ℚ) :
    CenterOut :=
  if shouldSkipCenter cfg st.processed c.1 c.2 then ⟨st, .ok ()⟩
  else
    let o := keywordsLoop cfg env c.1 c.2 cfg.keywords st 0
    match o.res with
    | .error e => ⟨o.st, .error e⟩
    | .ok _ =>
      ⟨{ o.st with processed := o.st.processed ++ [(c.1, c.2, o.newCount)] },
        .ok ()⟩

/-- The `for center_lat, center_lng in centers_iter` loop
(functions.py lines 514-636). -/
def centersLoop (cfg : OConfig) (env : UpEnv) :
    List (ℚ × ℚ) → RunState → CenterOut
  | [], st => ⟨st, .ok ()⟩
  | c :: rest, st =>
    let o := centerStep cfg env st c
    match o.res with
    | .error e => ⟨o.st, .error e⟩
    | .ok _ => centersLoop cfg env rest o.st

/-- The run state at the top of `collect_for_state`'s try block: ledger
seeded with `existing_place_ids`, empty buffer, CSV open iff requested. -/
def initState (cfg : OConfig) (existing : Finset String) : RunState where
  seen := existing
  sheetRows := []
  buffer := []
  csvRows := []
  csvOpen := cfg.csv_output
  totalRequests := 0
  detailTrace := []
  searchTrace := []
  processed := []

/-- The `finally` block (functions.py lines 637-642): flush any buffered
rows to the destination and close the local CSV file if open. -/
def drainState (st : RunState) : RunState :=
  let st1 := if st.buffer = [] then st
    else { st with sheetRows := st.sheetRows ++ st.buffer, buffer := [] }
  { st1 with csvOpen := false }

/-- Result of one whole run: the final state and either the `RunResult` or
the escaping exception. -/
structure CollectOut where
  st : RunState
  res : Except String RunResult
deriving DecidableEq

/-- Embeds `collect_for_state` (functions.py lines 443-653): sweep all centers,
drain on both normal completion and error, and on success report
`added_count = len(seen) - len(existing_place_ids)` and
`api_requests = total_requests`. -/
def collect_for_state (cfg : OConfig) (env : UpEnv) (centers : List (ℚ × ℚ))
    (existing : Finset String) : CollectOut :=
  let o := centersLoop cfg env centers (initState cfg existing)
  let stF := drainState o.st
  match o.res with
  | .error e => ⟨stF, .error e⟩
  | .ok _ => ⟨stF, .ok ⟨stF.seen.card - existing.card, stF.totalRequests⟩⟩

/-- Embeds `read_existing_place_ids` (functions.py lines 333-342): the input models
the outcome of the values().get call (`.error` is an `HttpError`); rows are
the cell rows of the place_id column; falsy (empty or absent) cells are
dropped; on `HttpError` the function returns the empty set. -/
def read_existing_place_ids (resp : Except String (List (List String))) :
    Finset String :=
  match resp with
  | .error _ => ∅
  | .ok values =>
    values.foldl (fun s row =>
      match row with
      | [] => s
      | p :: _ => if p = "" then s else insert p s) ∅

/-- The guard under which `collect_for_state` reaches the `fetch_details`
call for a hit (functions.py lines 555-567), given the current ledger:
a truthy `place_id` not in the ledger whose name passes the filter chain.
Returns the fetched pid, or `none` when the hit is skipped first. -/
def fetchGuard (seen : Finset String) (hit : RawHit) : Option String :=
  match validPid hit.place_id with
  | none => none
  | some p =>
    if p ∈ seen then none
    else if acceptName (pyLower (pyStrip hit.name)) then some p
    else none

/-- Outcome of one `append_rows_to_sheet` call as classified by
`append_rows_with_retry` (functions.py lines 384-394): success, a transient
failure (network/SSL/5xx), or a non-transient failure. -/
inductive AppendOutcome where
  | ok
  | transientFail
  | fatalFail
deriving DecidableEq, Repr

/-- Result of the per-chunk retry loop of `append_rows_with_retry`: the
batches handed to `append_rows_to_sheet` (in order), the next global call
index, the (possibly halved) `chunk_size` variable after the chunk, and
whether the chunk eventually succeeded (`false` models the re-raise). -/
structure ChunkRun (α : Type) where
  calls : List (List α)
  callIdx : Nat
  chunkSize : Nat
  success : Bool
deriving DecidableEq, Repr

/-- The `while True` retry loop for one chunk (functions.py lines 380-405).
`outcome i` classifies the `i`-th `append_rows_to_sheet` call of the whole
flush.  The same `sub` is re-sent on every retry; from the second failed
attempt on, the `chunk_size` variable is halved (minimum 1), which only
affects how later chunks are sliced.  `fuel ≥ maxAttempts` suffices since the
loop raises once `attempt ≥ maxAttempts` fails. -/
def chunkAttemptGo (outcome : Nat → AppendOutcome) (sub : List α)
    (maxAttempts : Nat) : Nat → Nat → Nat → Nat → ChunkRun α
  | _, chunkSize, callIdx, 0 => ⟨[], callIdx, chunkSize, false⟩
  | attempt, chunkSize, callIdx, fuel + 1 =>
    match outcome callIdx with
    | .ok => ⟨[sub], callIdx + 1, chunkSize, true⟩
    | .fatalFail => ⟨[sub], callIdx + 1, chunkSize, false⟩
    | .transientFail =>
      if maxAttempts ≤ attempt then ⟨[sub], callIdx + 1, chunkSize, false⟩
      else
        let cs' := if 2 ≤ attempt ∧ 1 < chunkSize
          then max 1 (chunkSize / 2) else chunkSize
        let rest := chunkAttemptGo outcome sub maxAttempts
          (attempt + 1) cs' (callIdx + 1) fuel
        ⟨sub :: rest.calls, rest.callIdx, rest.chunkSize, rest.success⟩

/-- The chunking loop of `append_rows_with_retry` (functions.py lines
376-409): slice `rows[i : i + max(1, chunk_size)]`, run the retry loop on
that chunk, advance; the `chunk_size` mutated inside a chunk's retries
carries over to the slicing of subsequent chunks.  `fuel` bounds the
iteration count; since each iteration consumes at least one row,
`rows.length + 1` is always enough. -/
def appendRowsGo (outcome : Nat → AppendOutcome) (maxAttempts : Nat) :
    Nat → List α → Nat → Nat → List (List α) × Bool
  | 0, _, _, _ => ([], false)
  | _ + 1, [], _, _ => ([], true)
  | fuel + 1, r :: rest, chunkSize, callIdx =>
    let remaining := r :: rest
    let sub := remaining.take (max 1 chunkSize)
    let c := chunkAttemptGo outcome sub maxAttempts 1 chunkSize callIdx
      (maxAttempts + 1)
    if c.success then
      let next := appendRowsGo outcome maxAttempts fuel
        (remaining.drop (max 1 chunkSize)) c.chunkSize c.callIdx
      (c.calls ++ next.1, next.2)
    else (c.calls, false)

/-- Embeds `append_rows_with_retry` (functions.py lines 362-409): the list of
batches handed to `append_rows_to_sheet`, and whether the flush completed
(`false` models the propagated failure). -/
def append_rows_with_retry (outcome : Nat → AppendOutcome) (rows : List α)
    (maxAttempts chunkSize : Nat) : List (List α) × Bool :=
  match rows with
  | [] => ([], true)
  | r :: rest =>
    appendRowsGo outcome maxAttempts ((r :: rest).length + 1) (r :: rest)
      chunkSize 0

/-- A hit whose name passes the filter chain. -/
def hitNamed (pid : String) : RawHit := ⟨some pid, "music studio"⟩

/-- Configuration for the C1 counterexample: two keywords, a per-center cap
of one new place, overlap pruning off. -/
def cfgC1 : OConfig where
  keywords := ["k1", "k2"]
  stop_after_new := some 1
  skip_overlap_centers := false
  overlap_factor := 3 / 5
  radius_m := 25000
  flush_every := 10
  csv_output := false
  cosDeg := fun _ => 1
  page_fuel := 3

/-- Deterministic upstream for the C1 counterexample: keyword `k1` returns
one acceptable hit `x`, keyword `k2` one acceptable hit `z`. -/
def envC1 : UpEnv where
  search := fun q =>
    if q.pagetoken = none ∧ q.keyword = "k1" then
      .ok ⟨"OK", [hitNamed "x"], none⟩
    else if q.pagetoken = none ∧ q.keyword = "k2" then
      .ok ⟨"OK", [hitNamed "z"], none⟩
    else .ok ⟨"ZERO_RESULTS", [], none⟩
  detail := fun _ => .ok ()

/-- Minimal default configuration: one keyword, no cap, no pruning. -/
def cfgOne : OConfig where
  keywords := ["kw"]
  stop_after_new := none
  skip_overlap_centers := false
  overlap_factor := 3 / 5
  radius_m := 25000
  flush_every := 10
  csv_output := false
  cosDeg := fun _ => 1
  page_fuel := 5

/-- Upstream for the C2 counterexample: a single page with one acceptable
hit, so the run performs one search call and one detail call. -/
def envC2 : UpEnv where
  search := fun q =>
    if q.pagetoken = none then .ok ⟨"OK", [hitNamed "x"], none⟩
    else .ok ⟨"ZERO_RESULTS", [], none⟩
  detail := fun _ => .ok ()

/-- Upstream for the C7 counterexample: page 1 yields one new hit and a
token, page 2 repeats the same hit (zero new records) with another token,
page 3 is empty. -/
def envC7 : UpEnv where
  search := fun q =>
    if q.pagetoken = none then .ok ⟨"OK", [hitNamed "x"], some "t1"⟩
    else if q.pagetoken = some "t1" then .ok ⟨"OK", [hitNamed "x"], some "t2"⟩
    else .ok ⟨"ZERO_RESULTS", [], none⟩
  detail := fun _ => .ok ()

/-- Configuration for the C8 scenario: overlap pruning on. -/
def cfgC8 : OConfig where
  keywords := ["kw"]
  stop_after_new := none
  skip_overlap_centers := true
  overlap_factor := 3 / 5
  radius_m := 25000
  flush_every := 10
  csv_output := false
  cosDeg := fun _ => 1
  page_fuel := 3

/-- The two C8 centers: 5 km apart along a meridian
(`111320 * (5000/111320) = 5000` meters). -/
def centersC8 : List (ℚ × ℚ) := [(0, 0), (5000 / 111320, 0)]

/-- C8 upstream in which the first center yields one new record. -/
def envC8hit : UpEnv where
  search := fun q =>
    if q.pagetoken = none ∧ q.lat = 0 then .ok ⟨"OK", [hitNamed "a"], none⟩
    else .ok ⟨"ZERO_RESULTS", [], none⟩
  detail := fun _ => .ok ()

/-- C8 upstream in which every search comes back empty. -/
def envC8zero : UpEnv where
  search := fun _ => .ok ⟨"ZERO_RESULTS", [], none⟩
  detail := fun _ => .ok ()

/-- Upstream whose search always fails with a transport error (for the C3
witness). -/
def envErr : UpEnv where
  search := fun _ => .error "boom"
  detail := fun _ => .ok ()

/-- C4 outcome oracle: the first two append calls fail transiently, the rest
succeed. -/
def outcomeC4 : Nat → AppendOutcome := fun i => if i < 2 then .transientFail else .ok

/-- Outcome oracle with no failures. -/
def outcomeOk : Nat → AppendOutcome := fun _ => .ok

/-- Transport that always raises (for the C5 counterexample). -/
def transErr : Nat → Except String SearchResponse := fun _ => .error "conn reset"

/-- Transport that always answers with a transient quota status (for the C5
witness). -/
def transQuota : Nat → Except String SearchResponse :=
  fun _ => .ok ⟨"OVER_QUERY_LIMIT", [], none⟩

/-- The pre-existing destination row for the C10 scenario. -/
def rowC10 : Row := ⟨"x", "music studio", "kw", 0, 0⟩

/-- The state produced by the accepted-hit branch of `hitStep` (functions.py
lines 567-615), starting from `st`: record the detail fetch, buffer the row,
grow the ledger, mirror to CSV, and flush if the threshold is reached. -/
def hitAppend (cfg : OConfig) (kw : String) (clat clng : ℚ) (st : RunState)
    (p nm : String) : RunState :=
  let row : Row := ⟨p, nm, kw, clat, clng⟩
  let st2 : RunState := { st with
    detailTrace := st.detailTrace ++ [p],
    buffer := st.buffer ++ [row],
    seen := insert p st.seen,
    csvRows := if cfg.csv_output then st.csvRows ++ [row] else st.csvRows }
  if cfg.flush_every ≤ st2.buffer.length then
    { st2 with sheetRows := st2.sheetRows ++ st2.buffer, buffer := [] }
  else st2

/-- Evolution relation of the destination-facing state across any sweep
fragment: some list `new` of fresh rows is appended (across `sheetRows` and
the buffer), its pids are mutually distinct and absent from the starting
ledger, and the ledger grows by exactly those pids. -/
def RunStep (st st' : RunState) : Prop :=
  ∃ new : List Row,
    st'.sheetRows ++ st'.buffer = st.sheetRows ++ st.buffer ++ new ∧
    (pids new).Nodup ∧ (∀ q ∈ pids new, q ∉ st.seen) ∧
    st'.seen = st.seen ∪ (pids new).toFinset

/-- A state that has not appended anything and still carries the seed
ledger. -/
def Pristine (s0 : Finset String) (st : RunState) : Prop :=
  st.seen = s0 ∧ st.sheetRows = [] ∧ st.buffer = []

/-- Every acceptable first-page hit of every (center, keyword) pair already
lies in `s0`: the coverage a completed first run provides to the next run's
seed ledger. -/
def PageOneCovered (cfg : OConfig) (env : UpEnv) (centers : List (ℚ × ℚ))
    (s0 : Finset String) : Prop :=
  ∀ c ∈ centers, ∀ kw ∈ cfg.keywords, ∀ data,
    env.search ⟨c.1, c.2, kw, none⟩ = .ok data →
    ∀ h ∈ data.results, ∀ p, validPid h.place_id = some p →
      acceptName (pyLower (pyStrip h.name)) = true → p ∈ s0

/-- Invariant used for the detail-fetch discipline: the pids handed to
`fetch_details` so far are pairwise distinct, the seed ledger is contained in
the current ledger, and no fetched pid was in the seed ledger. -/
def DTraceInv (existing : Finset String) (st : RunState) : Prop :=
  st.detailTrace.Nodup ∧ existing ⊆ st.seen ∧
    ∀ p ∈ st.detailTrace, p ∉ existing

/-- Embeds `DTraceInv` strengthened with: every fetched pid is in the ledger (this
extra conjunct can be momentarily broken by an erroring fetch, which aborts
the run). -/
def DTraceFull (existing : Finset String) (st : RunState) : Prop :=
  DTraceInv existing st ∧ ∀ p ∈ st.detailTrace, p ∈ st.seen

/-- Exhaustive characterisation of `hitStep`: either the hit is skipped
before the detail fetch and the state is untouched, or `fetch_details` is
reached for the guarded pid and it raises, or it succeeds and the row is
appended. -/
theorem hitStep_cases (cfg : OConfig) (env : UpEnv) (kw : String)
    (clat clng : ℚ) (st : RunState) (n : Nat) (h : RawHit) :
    (fetchGuard st.seen h = none ∧
      hitStep cfg env kw clat clng st n h = ⟨st, n, .ok ()⟩) ∨
    (∃ p e, fetchGuard st.seen h = some p ∧ env.detail p = .error e ∧
      hitStep cfg env kw clat clng st n h =
        ⟨{ st with detailTrace := st.detailTrace ++ [p] }, n, .error e⟩) ∨
    (∃ p, fetchGuard st.seen h = some p ∧ env.detail p = .ok () ∧
      hitStep cfg env kw clat clng st n h =
        ⟨hitAppend cfg kw clat clng st p (pyStrip h.name), n + 1, .ok ()⟩) := by
  cases hv : validPid h.place_id with
  | none =>
    refine Or.inl ⟨?_, ?_⟩ <;> simp [fetchGuard, hitStep, hv]
  | some p =>
    by_cases hp : p ∈ st.seen
    · refine Or.inl ⟨?_, ?_⟩ <;> simp [fetchGuard, hitStep, hv, hp]
    · cases ha : acceptName (pyLower (pyStrip h.name)) with
      | false =>
        refine Or.inl ⟨?_, ?_⟩ <;> simp [fetchGuard, hitStep, hv, hp, ha]
      | true =>
        cases hd : env.detail p with
        | error e =>
          refine Or.inr (Or.inl ⟨p, e, ?_, hd, ?_⟩) <;>
            simp [fetchGuard, hitStep, hv, hp, ha, hd]
        | ok u =>
          refine Or.inr (Or.inr ⟨p, ?_, ?_, ?_⟩)
          · simp [fetchGuard, hv, hp, ha]
          · simp [hd]
          · simp [hitStep, hv, hp, ha, hd, hitAppend]

theorem pids_append (a b : List Row) : pids (a ++ b) = pids a ++ pids b :=
  List.map_append _ _ _

theorem fetchGuard_eq_some {s : Finset String} {h : RawHit} {p : String}
    (hg : fetchGuard s h = some p) :
    validPid h.place_id = some p ∧ p ∉ s ∧
      acceptName (pyLower (pyStrip h.name)) = true := by
  cases hv : validPid h.place_id with
  | none => simp [fetchGuard, hv] at hg
  | some q =>
    by_cases hp : q ∈ s
    · simp [fetchGuard, hv, hp] at hg
    · cases ha : acceptName (pyLower (pyStrip h.name)) with
      | false => simp [fetchGuard, hv, hp, ha] at hg
      | true =>
        simp [fetchGuard, hv, hp, ha] at hg
        subst hg
        exact ⟨rfl, hp, rfl⟩

theorem hitAppend_spec (cfg : OConfig) (kw : String) (clat clng : ℚ)
    (st : RunState) (p nm : String) :
    (hitAppend cfg kw clat clng st p nm).sheetRows ++
        (hitAppend cfg kw clat clng st p nm).buffer =
      st.sheetRows ++ st.buffer ++ [⟨p, nm, kw, clat, clng⟩] ∧
    (hitAppend cfg kw clat clng st p nm).seen = insert p st.seen ∧
    (hitAppend cfg kw clat clng st p nm).detailTrace =
      st.detailTrace ++ [p] ∧
    (hitAppend cfg kw clat clng st p nm).searchTrace = st.searchTrace ∧
    (hitAppend cfg kw clat clng st p nm).totalRequests = st.totalRequests ∧
    (hitAppend cfg kw clat clng st p nm).processed = st.processed ∧
    (hitAppend cfg kw clat clng st p nm).csvOpen = st.csvOpen := by
  unfold hitAppend
  by_cases hf : cfg.flush_every ≤ st.buffer.length + 1 <;>
    simp [hf, List.append_assoc]

theorem runStep_refl (st : RunState) : RunStep st st :=
  ⟨[], by simp [pids], by simp [pids], by simp [pids], by simp [pids]⟩

theorem runStep_trans {st1 st2 st3 : RunState} (h12 : RunStep st1 st2)
    (h23 : RunStep st2 st3) : RunStep st1 st3 := by
  obtain ⟨a, ha1, ha2, ha3, ha4⟩ := h12
  obtain ⟨b, hb1, hb2, hb3, hb4⟩ := h23
  refine ⟨a ++ b, ?_, ?_, ?_, ?_⟩
  · rw [hb1, ha1, List.append_assoc]
  · rw [pids_append]
    refine List.Nodup.append ha2 hb2 ?_
    intro q hqa hqb
    exact hb3 q hqb (by
      rw [ha4]
      exact Finset.mem_union_right _ (List.mem_toFinset.mpr hqa))
  · intro q hq
    rw [pids_append] at hq
    rcases List.mem_append.mp hq with hqa | hqb
    · exact ha3 q hqa
    · intro hmem
      exact hb3 q hqb (by rw [ha4]; exact Finset.mem_union_left _ hmem)
  · rw [hb4, ha4, pids_append, List.toFinset_append, Finset.union_assoc]

theorem hitStep_runStep (cfg : OConfig) (env : UpEnv) (kw : String)
    (clat clng : ℚ) (st : RunState) (n : Nat) (h : RawHit) :
    RunStep st (hitStep cfg env kw clat clng st n h).st := by
  rcases hitStep_cases cfg env kw clat clng st n h with
    ⟨_, heq⟩ | ⟨p, e, hg, _, heq⟩ | ⟨p, hg, _, heq⟩
  · rw [heq]; exact runStep_refl st
  · rw [heq]
    exact ⟨[], by simp [pids], by simp [pids], by simp [pids], by simp [pids]⟩
  · rw [heq]
    obtain ⟨hv, hp, ha⟩ := fetchGuard_eq_some hg
    obtain ⟨h1, h2, _, _, _, _, _⟩ :=
      hitAppend_spec cfg kw clat clng st p (pyStrip h.name)
    refine ⟨[⟨p, pyStrip h.name, kw, clat, clng⟩], h1, by simp [pids], ?_, ?_⟩
    · intro q hq
      simp [pids] at hq
      subst hq
      exact hp
    · rw [h2]
      ext x
      simp [pids, or_comm]

theorem hitsLoop_runStep (cfg : OConfig) (env : UpEnv) (kw : String)
    (clat clng : ℚ) :
    ∀ (hits : List RawHit) (st : RunState) (n : Nat),
      RunStep st (hitsLoop cfg env kw clat clng hits st n).st := by
  intro hits
  induction hits with
  | nil => intro st n; exact runStep_refl st
  | cons h rest ih =>
    intro st n
    have hh := hitStep_runStep cfg env kw clat clng st n h
    cases hr : (hitStep cfg env kw clat clng st n h).res with
    | error e =>
      simp only [hitsLoop, hr]
      exact hh
    | ok u =>
      simp only [hitsLoop, hr]
      by_cases hc : capReached cfg (hitStep cfg env kw clat clng st n h).newCount
      · simp [hc]; exact hh
      · simp [hc]; exact runStep_trans hh (ih _ _)

theorem runStep_of_eq {st st' : RunState} (hs : st'.sheetRows = st.sheetRows)
    (hb : st'.buffer = st.buffer) (hn : st'.seen = st.seen) : RunStep st st' :=
  ⟨[], by simp [hs, hb], by simp [pids], by simp [pids], by simp [hn, pids]⟩

theorem hitStep_frame (cfg : OConfig) (env : UpEnv) (kw : String)
    (clat clng : ℚ) (st : RunState) (n : Nat) (h : RawHit) :
    (hitStep cfg env kw clat clng st n h).st.totalRequests =
      st.totalRequests ∧
    (hitStep cfg env kw clat clng st n h).st.searchTrace = st.searchTrace ∧
    (hitStep cfg env kw clat clng st n h).st.processed = st.processed ∧
    (hitStep cfg env kw clat clng st n h).st.csvOpen = st.csvOpen := by
  rcases hitStep_cases cfg env kw clat clng st n h with
    ⟨_, heq⟩ | ⟨p, e, _, _, heq⟩ | ⟨p, _, _, heq⟩ <;> rw [heq]
  · exact ⟨rfl, rfl, rfl, rfl⟩
  · exact ⟨rfl, rfl, rfl, rfl⟩
  · obtain ⟨_, _, _, h4, h5, h6, h7⟩ :=
      hitAppend_spec cfg kw clat clng st p (pyStrip h.name)
    exact ⟨h5, h4, h6, h7⟩

theorem hitsLoop_frame (cfg : OConfig) (env : UpEnv) (kw : String)
    (clat clng : ℚ) :
    ∀ (hits : List RawHit) (st : RunState) (n : Nat),
      (hitsLoop cfg env kw clat clng hits st n).st.totalRequests =
        st.totalRequests ∧
      (hitsLoop cfg env kw clat clng hits st n).st.searchTrace =
        st.searchTrace ∧
      (hitsLoop cfg env kw clat clng hits st n).st.processed =
        st.processed ∧
      (hitsLoop cfg env kw clat clng hits st n).st.csvOpen = st.csvOpen := by
  intro hits
  induction hits with
  | nil => intro st n; exact ⟨rfl, rfl, rfl, rfl⟩
  | cons h rest ih =>
    intro st n
    obtain ⟨f1, f2, f3, f4⟩ := hitStep_frame cfg env kw clat clng st n h
    cases hr : (hitStep cfg env kw clat clng st n h).res with
    | error e => simp only [hitsLoop, hr]; exact ⟨f1, f2, f3, f4⟩
    | ok u =>
      simp only [hitsLoop, hr]
      by_cases hc : capReached cfg (hitStep cfg env kw clat clng st n h).newCount
      · simp only [hc, if_true]; exact ⟨f1, f2, f3, f4⟩
      · simp only [hc, if_false]
        obtain ⟨g1, g2, g3, g4⟩ := ih (hitStep cfg env kw clat clng st n h).st
          (hitStep cfg env kw clat clng st n h).newCount
        exact ⟨g1.trans f1, g2.trans f2, g3.trans f3, g4.trans f4⟩

theorem pagesLoop_step (cfg : OConfig) (env : UpEnv) (kw : String)
    (clat clng : ℚ) :
    ∀ (fuel : Nat) (data : SearchResponse) (page_count : Nat)
      (st : RunState) (n : Nat),
      RunStep st (pagesLoop cfg env kw clat clng fuel data page_count st n).st ∧
      (pagesLoop cfg env kw clat clng fuel data page_count st n).st.processed =
        st.processed ∧
      (pagesLoop cfg env kw clat clng fuel data page_count st n).st.csvOpen =
        st.csvOpen := by
  intro fuel
  induction fuel with
  | zero =>
    intro data page_count st n
    rw [pagesLoop]
    by_cases habort : 1 < page_count ∧ n = 0
    · simp only [habort, if_true]
      exact ⟨runStep_refl st, rfl, rfl⟩
    · simp only [habort, if_false]
      have hrs := hitsLoop_runStep cfg env kw clat clng data.results st n
      obtain ⟨_, _, f3, f4⟩ := hitsLoop_frame cfg env kw clat clng data.results st n
      cases hr : (hitsLoop cfg env kw clat clng data.results st n).res with
      | error e => simp only [hr]; exact ⟨hrs, f3, f4⟩
      | ok u =>
        simp only [hr]
        by_cases hc : capReached cfg
            (hitsLoop cfg env kw clat clng data.results st n).newCount
        · simp only [hc, if_true]; exact ⟨hrs, f3, f4⟩
        · simp only [hc, if_false]
          cases htok : data.next_page_token with
          | none => simp only [htok]; exact ⟨hrs, f3, f4⟩
          | some tok => simp only [htok]; exact ⟨hrs, f3, f4⟩
  | succ fuel' ih =>
    intro data page_count st n
    rw [pagesLoop]
    by_cases habort : 1 < page_count ∧ n = 0
    · simp only [habort, if_true]
      exact ⟨runStep_refl st, rfl, rfl⟩
    · simp only [habort, if_false]
      have hrs := hitsLoop_runStep cfg env kw clat clng data.results st n
      obtain ⟨_, _, f3, f4⟩ := hitsLoop_frame cfg env kw clat clng data.results st n
      cases hr : (hitsLoop cfg env kw clat clng data.results st n).res with
      | error e => simp only [hr]; exact ⟨hrs, f3, f4⟩
      | ok u =>
        simp only [hr]
        by_cases hc : capReached cfg
            (hitsLoop cfg env kw clat clng data.results st n).newCount
        · simp only [hc, if_true]; exact ⟨hrs, f3, f4⟩
        · simp only [hc, if_false]
          cases htok : data.next_page_token with
          | none => simp only [htok]; exact ⟨hrs, f3, f4⟩
          | some tok =>
            simp only [htok]
            cases hs : env.search ⟨clat, clng, kw, some tok⟩ with
            | error e =>
              simp only [hs]
              refine ⟨runStep_trans hrs (runStep_of_eq rfl rfl rfl), f3, f4⟩
            | ok data' =>
              simp only [hs]
              obtain ⟨g1, g2, g3⟩ := ih data' (page_count + 1)
                { (hitsLoop cfg env kw clat clng data.results st n).st with
                  searchTrace :=
                    (hitsLoop cfg env kw clat clng data.results st n).st.searchTrace
                      ++ [⟨clat, clng, kw, some tok⟩],
                  totalRequests :=
                    (hitsLoop cfg env kw clat clng data.results st n).st.totalRequests
                      + 1 }
                (hitsLoop cfg env kw clat clng data.results st n).newCount
              refine ⟨runStep_trans hrs
                (runStep_trans (runStep_of_eq rfl rfl rfl) g1), ?_, ?_⟩
              · exact g2.trans f3
              · exact g3.trans f4

theorem keywordStep_step (cfg : OConfig) (env : UpEnv) (clat clng : ℚ)
    (st : RunState) (n : Nat) (kw : String) :
    RunStep st (keywordStep cfg env clat clng st n kw).st ∧
    (keywordStep cfg env clat clng st n kw).st.processed = st.processed ∧
    (keywordStep cfg env clat clng st n kw).st.csvOpen = st.csvOpen := by
  unfold keywordStep
  cases hs : env.search ⟨clat, clng, kw, none⟩ with
  | error e =>
    simp only [hs]
    exact ⟨runStep_of_eq rfl rfl rfl, by trivial, by trivial⟩
  | ok data =>
    simp only [hs]
    obtain ⟨g1, g2, g3⟩ := pagesLoop_step cfg env kw clat clng cfg.page_fuel
      data 1
      { st with
        searchTrace := st.searchTrace ++ [⟨clat, clng, kw, none⟩],
        totalRequests := st.totalRequests + 1 } n
    exact ⟨runStep_trans (runStep_of_eq rfl rfl rfl) g1, g2, g3⟩

theorem keywordsLoop_step (cfg : OConfig) (env : UpEnv) (clat clng : ℚ) :
    ∀ (kws : List String) (st : RunState) (n : Nat),
      RunStep st (keywordsLoop cfg env clat clng kws st n).st ∧
      (keywordsLoop cfg env clat clng kws st n).st.processed = st.processed ∧
      (keywordsLoop cfg env clat clng kws st n).st.csvOpen = st.csvOpen := by
  intro kws
  induction kws with
  | nil => intro st n; exact ⟨runStep_refl st, rfl, rfl⟩
  | cons kw rest ih =>
    intro st n
    rw [keywordsLoop]
    by_cases hc : capReached cfg n
    · simp only [hc, if_true]
      exact ⟨runStep_refl st, by trivial, by trivial⟩
    · simp only [hc, if_false]
      obtain ⟨f1, f2, f3⟩ := keywordStep_step cfg env clat clng st n kw
      cases hr : (keywordStep cfg env clat clng st n kw).res with
      | error e => simp only [hr]; exact ⟨f1, f2, f3⟩
      | ok u =>
        simp only [hr]
        obtain ⟨g1, g2, g3⟩ := ih (keywordStep cfg env clat clng st n kw).st
          (keywordStep cfg env clat clng st n kw).newCount
        exact ⟨runStep_trans f1 g1, g2.trans f2, g3.trans f3⟩

theorem centerStep_step (cfg : OConfig) (env : UpEnv) (st : RunState)
    (c : ℚ × ℚ) :
    RunStep st (centerStep cfg env st c).st ∧
    (centerStep cfg env st c).st.csvOpen = st.csvOpen := by
  unfold centerStep
  by_cases hskip : shouldSkipCenter cfg st.processed c.1 c.2
  · simp only [hskip, if_true]
    exact ⟨runStep_refl st, by trivial⟩
  · simp only [hskip, if_false]
    obtain ⟨f1, _, f3⟩ := keywordsLoop_step cfg env c.1 c.2 cfg.keywords st 0
    cases hr : (keywordsLoop cfg env c.1 c.2 cfg.keywords st 0).res with
    | error e => simp only [hr]; exact ⟨f1, f3⟩
    | ok u =>
      simp only [hr]
      exact ⟨runStep_trans f1 (runStep_of_eq rfl rfl rfl), f3⟩

theorem centersLoop_step (cfg : OConfig) (env : UpEnv) :
    ∀ (centers : List (ℚ × ℚ)) (st : RunState),
      RunStep st (centersLoop cfg env centers st).st ∧
      (centersLoop cfg env centers st).st.csvOpen = st.csvOpen := by
  intro centers
  induction centers with
  | nil => intro st; exact ⟨runStep_refl st, by trivial⟩
  | cons c rest ih =>
    intro st
    obtain ⟨f1, f2⟩ := centerStep_step cfg env st c
    cases hr : (centerStep cfg env st c).res with
    | error e => simp only [centersLoop, hr]; exact ⟨f1, f2⟩
    | ok u =>
      simp only [centersLoop, hr]
      obtain ⟨g1, g2⟩ := ih (centerStep cfg env st c).st
      exact ⟨runStep_trans f1 g1, g2.trans f2⟩

theorem drainState_spec (st : RunState) :
    (drainState st).buffer = [] ∧
    (drainState st).sheetRows = st.sheetRows ++ st.buffer ∧
    (drainState st).seen = st.seen ∧
    (drainState st).csvOpen = false ∧
    (drainState st).totalRequests = st.totalRequests ∧
    (drainState st).detailTrace = st.detailTrace ∧
    (drainState st).searchTrace = st.searchTrace ∧
    (drainState st).processed = st.processed := by
  unfold drainState
  by_cases hb : st.buffer = [] <;> simp [hb]

theorem collect_st_eq (cfg : OConfig) (env : UpEnv) (centers : List (ℚ × ℚ))
    (existing : Finset String) :
    (collect_for_state cfg env centers existing).st =
      drainState (centersLoop cfg env centers (initState cfg existing)).st := by
  unfold collect_for_state
  cases hr : (centersLoop cfg env centers (initState cfg existing)).res <;>
    simp [hr]

theorem collect_res_err {cfg : OConfig} {env : UpEnv}
    {centers : List (ℚ × ℚ)} {existing : Finset String} {e : String}
    (h : (centersLoop cfg env centers (initState cfg existing)).res =
      .error e) :
    (collect_for_state cfg env centers existing).res = .error e := by
  unfold collect_for_state
  simp [h]

theorem collect_res_of_ok {cfg : OConfig} {env : UpEnv}
    {centers : List (ℚ × ℚ)} {existing : Finset String}
    (h : (centersLoop cfg env centers (initState cfg existing)).res =
      .ok ()) :
    (collect_for_state cfg env centers existing).res =
      .ok ⟨(collect_for_state cfg env centers existing).st.seen.card -
             existing.card,
           (collect_for_state cfg env centers existing).st.totalRequests⟩ := by
  rw [collect_st_eq]
  unfold collect_for_state
  simp [h]

theorem collect_ok_centers {cfg : OConfig} {env : UpEnv}
    {centers : List (ℚ × ℚ)} {existing : Finset String} {r : RunResult}
    (h : (collect_for_state cfg env centers existing).res = .ok r) :
    (centersLoop cfg env centers (initState cfg existing)).res = .ok () ∧
    r.added_count =
      (collect_for_state cfg env centers existing).st.seen.card -
        existing.card ∧
    r.api_requests =
      (collect_for_state cfg env centers existing).st.totalRequests := by
  cases hr : (centersLoop cfg env centers (initState cfg existing)).res with
  | error e =>
    rw [collect_res_err hr] at h
    cases h
  | ok u =>
    cases u
    have h2 := collect_res_of_ok hr
    rw [h2] at h
    have h3 := h.symm
    simp only [Except.ok.injEq] at h3
    subst h3
    exact ⟨rfl, rfl, rfl⟩

theorem pagesLoop_abort (cfg : OConfig) (env : UpEnv) (kw : String)
    (clat clng : ℚ) (fuel : Nat) (data : SearchResponse) (page_count : Nat)
    (st : RunState) (n : Nat) (hpc : 1 < page_count) (hn : n = 0) :
    pagesLoop cfg env kw clat clng fuel data page_count st n =
      ⟨st, n, .ok ()⟩ := by
  rw [pagesLoop]
  simp [hpc, hn]

theorem hitsLoop_pres (cfg : OConfig) (env : UpEnv) (kw : String)
    (clat clng : ℚ) (P Q : RunState → Prop)
    (hhit : ∀ st n h, Q st →
      P (hitStep cfg env kw clat clng st n h).st ∧
      ((hitStep cfg env kw clat clng st n h).res = .ok () →
        Q (hitStep cfg env kw clat clng st n h).st))
    (hPQ : ∀ st, Q st → P st) :
    ∀ (hits : List RawHit) (st : RunState) (n : Nat), Q st →
      P (hitsLoop cfg env kw clat clng hits st n).st ∧
      ((hitsLoop cfg env kw clat clng hits st n).res = .ok () →
        Q (hitsLoop cfg env kw clat clng hits st n).st) := by
  intro hits
  induction hits with
  | nil => intro st n hq; exact ⟨hPQ st hq, fun _ => hq⟩
  | cons h rest ih =>
    intro st n hq
    obtain ⟨hp1, hq1⟩ := hhit st n h hq
    cases hr : (hitStep cfg env kw clat clng st n h).res with
    | error e =>
      simp only [hitsLoop, hr]
      exact ⟨hp1, fun hcon => absurd hcon (by simp)⟩
    | ok u =>
      cases u
      simp only [hitsLoop, hr]
      by_cases hc : capReached cfg (hitStep cfg env kw clat clng st n h).newCount
      · simp only [hc, if_true]
        exact ⟨hp1, fun _ => hq1 hr⟩
      · simp only [hc, if_false]
        exact ih _ _ (hq1 hr)

theorem pagesLoop_pres (cfg : OConfig) (env : UpEnv) (kw : String)
    (clat clng : ℚ) (P Q : RunState → Prop)
    (hhit : ∀ st n h, Q st →
      P (hitStep cfg env kw clat clng st n h).st ∧
      ((hitStep cfg env kw clat clng st n h).res = .ok () →
        Q (hitStep cfg env kw clat clng st n h).st))
    (hsearchOk : ∀ (st : RunState) (q : SQuery) data,
      env.search q = .ok data → Q st →
      Q { st with searchTrace := st.searchTrace ++ [q],
                  totalRequests := st.totalRequests + 1 })
    (hsearchErr : ∀ (st : RunState) (q : SQuery) e,
      env.search q = .error e → Q st →
      P { st with searchTrace := st.searchTrace ++ [q] })
    (hPQ : ∀ st, Q st → P st) :
    ∀ (fuel : Nat) (data : SearchResponse) (page_count : Nat)
      (st : RunState) (n : Nat), Q st →
      P (pagesLoop cfg env kw clat clng fuel data page_count st n).st ∧
      ((pagesLoop cfg env kw clat clng fuel data page_count st n).res =
          .ok () →
        Q (pagesLoop cfg env kw clat clng fuel data page_count st n).st) := by
  intro fuel
  induction fuel with
  | zero =>
    intro data page_count st n hq
    rw [pagesLoop]
    by_cases habort : 1 < page_count ∧ n = 0
    · simp only [habort, if_true]
      exact ⟨hPQ st hq, fun _ => hq⟩
    · simp only [habort, if_false]
      obtain ⟨hp1, hq1⟩ := hitsLoop_pres cfg env kw clat clng P Q hhit hPQ
        data.results st n hq
      cases hr : (hitsLoop cfg env kw clat clng data.results st n).res with
      | error e =>
        simp only [hr]
        exact ⟨hp1, fun hcon => absurd hcon (by simp)⟩
      | ok u =>
        cases u
        simp only [hr]
        by_cases hc : capReached cfg
            (hitsLoop cfg env kw clat clng data.results st n).newCount
        · simp only [hc, if_true]
          exact ⟨hp1, fun _ => hq1 hr⟩
        · simp only [hc, if_false]
          cases htok : data.next_page_token with
          | none => simp only [htok]; exact ⟨hp1, fun _ => hq1 hr⟩
          | some tok => simp only [htok]; exact ⟨hp1, fun _ => hq1 hr⟩
  | succ fuel' ih =>
    intro data page_count st n hq
    rw [pagesLoop]
    by_cases habort : 1 < page_count ∧ n = 0
    · simp only [habort, if_true]
      exact ⟨hPQ st hq, fun _ => hq⟩
    · simp only [habort, if_false]
      obtain ⟨hp1, hq1⟩ := hitsLoop_pres cfg env kw clat clng P Q hhit hPQ
        data.results st n hq
      cases hr : (hitsLoop cfg env kw clat clng data.results st n).res with
      | error e =>
        simp only [hr]
        exact ⟨hp1, fun hcon => absurd hcon (by simp)⟩
      | ok u =>
        cases u
        simp only [hr]
        by_cases hc : capReached cfg
            (hitsLoop cfg env kw clat clng data.results st n).newCount
        · simp only [hc, if_true]
          exact ⟨hp1, fun _ => hq1 hr⟩
        · simp only [hc, if_false]
          cases htok : data.next_page_token with
          | none => simp only [htok]; exact ⟨hp1, fun _ => hq1 hr⟩
          | some tok =>
            simp only [htok]
            cases hs : env.search ⟨clat, clng, kw, some tok⟩ with
            | error e =>
              simp only [hs]
              exact ⟨hsearchErr _ _ _ hs (hq1 hr),
                fun hcon => absurd hcon (by simp)⟩
            | ok data' =>
              simp only [hs]
              exact ih data' (page_count + 1) _ _
                (hsearchOk _ _ _ hs (hq1 hr))

theorem keywordStep_pres (cfg : OConfig) (env : UpEnv) (clat clng : ℚ)
    (P Q : RunState → Prop)
    (hhit : ∀ kw st n h, Q st →
      P (hitStep cfg env kw clat clng st n h).st ∧
      ((hitStep cfg env kw clat clng st n h).res = .ok () →
        Q (hitStep cfg env kw clat clng st n h).st))
    (hsearchOk : ∀ (st : RunState) (q : SQuery) data,
      env.search q = .ok data → Q st →
      Q { st with searchTrace := st.searchTrace ++ [q],
                  totalRequests := st.totalRequests + 1 })
    (hsearchErr : ∀ (st : RunState) (q : SQuery) e,
      env.search q = .error e → Q st →
      P { st with searchTrace := st.searchTrace ++ [q] })
    (hPQ : ∀ st, Q st → P st) :
    ∀ (st : RunState) (n : Nat) (kw : String), Q st →
      P (keywordStep cfg env clat clng st n kw).st ∧
      ((keywordStep cfg env clat clng st n kw).res = .ok () →
        Q (keywordStep cfg env clat clng st n kw).st) := by
  intro st n kw hq
  unfold keywordStep
  cases hs : env.search ⟨clat, clng, kw, none⟩ with
  | error e =>
    simp only [hs]
    exact ⟨hsearchErr _ _ _ hs hq, fun hcon => absurd hcon (by simp)⟩
  | ok data =>
    simp only [hs]
    exact pagesLoop_pres cfg env kw clat clng P Q (hhit kw) hsearchOk
      hsearchErr hPQ cfg.page_fuel data 1 _ n (hsearchOk _ _ _ hs hq)

theorem keywordsLoop_pres (cfg : OConfig) (env : UpEnv) (clat clng : ℚ)
    (P Q : RunState → Prop)
    (hhit : ∀ kw st n h, Q st →
      P (hitStep cfg env kw clat clng st n h).st ∧
      ((hitStep cfg env kw clat clng st n h).res = .ok () →
        Q (hitStep cfg env kw clat clng st n h).st))
    (hsearchOk : ∀ (st : RunState) (q : SQuery) data,
      env.search q = .ok data → Q st →
      Q { st with searchTrace := st.searchTrace ++ [q],
                  totalRequests := st.totalRequests + 1 })
    (hsearchErr : ∀ (st : RunState) (q : SQuery) e,
      env.search q = .error e → Q st →
      P { st with searchTrace := st.searchTrace ++ [q] })
    (hPQ : ∀ st, Q st → P st) :
    ∀ (kws : List String) (st : RunState) (n : Nat), Q st →
      P (keywordsLoop cfg env clat clng kws st n).st ∧
      ((keywordsLoop cfg env clat clng kws st n).res = .ok () →
        Q (keywordsLoop cfg env clat clng kws st n).st) := by
  intro kws
  induction kws with
  | nil => intro st n hq; exact ⟨hPQ st hq, fun _ => hq⟩
  | cons kw rest ih =>
    intro st n hq
    rw [keywordsLoop]
    by_cases hc : capReached cfg n
    · simp only [hc, if_true]
      exact ⟨hPQ st hq, fun _ => hq⟩
    · simp only [hc, if_false]
      obtain ⟨hp1, hq1⟩ := keywordStep_pres cfg env clat clng P Q hhit
        hsearchOk hsearchErr hPQ st n kw hq
      cases hr : (keywordStep cfg env clat clng st n kw).res with
      | error e =>
        simp only [hr]
        exact ⟨hp1, fun hcon => absurd hcon (by simp)⟩
      | ok u =>
        cases u
        simp only [hr]
        exact ih _ _ (hq1 hr)

theorem centersLoop_pres (cfg : OConfig) (env : UpEnv)
    (P Q : RunState → Prop)
    (hhit : ∀ kw clat clng st n h, Q st →
      P (hitStep cfg env kw clat clng st n h).st ∧
      ((hitStep cfg env kw clat clng st n h).res = .ok () →
        Q (hitStep cfg env kw clat clng st n h).st))
    (hsearchOk : ∀ (st : RunState) (q : SQuery) data,
      env.search q = .ok data → Q st →
      Q { st with searchTrace := st.searchTrace ++ [q],
                  totalRequests := st.totalRequests + 1 })
    (hsearchErr : ∀ (st : RunState) (q : SQuery) e,
      env.search q = .error e → Q st →
      P { st with searchTrace := st.searchTrace ++ [q] })
    (hproc : ∀ (st : RunState) (c : ℚ × ℚ × Nat), Q st →
      Q { st with processed := st.processed ++ [c] })
    (hPQ : ∀ st, Q st → P st) :
    ∀ (centers : List (ℚ × ℚ)) (st : RunState), Q st →
      P (centersLoop cfg env centers st).st ∧
      ((centersLoop cfg env centers st).res = .ok () →
        Q (centersLoop cfg env centers st).st) := by
  intro centers
  induction centers with
  | nil => intro st hq; exact ⟨hPQ st hq, fun _ => hq⟩
  | cons c rest ih =>
    intro st hq
    have hcs : P (centerStep cfg env st c).st ∧
        ((centerStep cfg env st c).res = .ok () →
          Q (centerStep cfg env st c).st) := by
      unfold centerStep
      by_cases hskip : shouldSkipCenter cfg st.processed c.1 c.2
      · simp only [hskip, if_true]
        exact ⟨hPQ st hq, fun _ => hq⟩
      · simp only [hskip, if_false]
        obtain ⟨hp1, hq1⟩ := keywordsLoop_pres cfg env c.1 c.2 P Q
          (fun kw => hhit kw c.1 c.2) hsearchOk hsearchErr hPQ
          cfg.keywords st 0 hq
        cases hr : (keywordsLoop cfg env c.1 c.2 cfg.keywords st 0).res with
        | error e =>
          simp only [hr]
          exact ⟨hp1, fun hcon => absurd hcon (by simp)⟩
        | ok u =>
          cases u
          simp only [hr]
          exact ⟨hPQ _ (hproc _ _ (hq1 hr)), fun _ => hproc _ _ (hq1 hr)⟩
    obtain ⟨hp1, hq1⟩ := hcs
    cases hr : (centerStep cfg env st c).res with
    | error e =>
      simp only [centersLoop, hr]
      exact ⟨hp1, fun hcon => absurd hcon (by simp)⟩
    | ok u =>
      cases u
      simp only [centersLoop, hr]
      exact ih _ (hq1 hr)

theorem hitStep_dtrace (ex : Finset String) (cfg : OConfig) (env : UpEnv)
    (kw : String) (clat clng : ℚ) (st : RunState) (n : Nat) (h : RawHit)
    (hfull : DTraceFull ex st) :
    DTraceInv ex (hitStep cfg env kw clat clng st n h).st ∧
    ((hitStep cfg env kw clat clng st n h).res = .ok () →
      DTraceFull ex (hitStep cfg env kw clat clng st n h).st) := by
  obtain ⟨⟨hnd, hsub, hnex⟩, hfl⟩ := hfull
  rcases hitStep_cases cfg env kw clat clng st n h with
    ⟨_, heq⟩ | ⟨p, e, hg, hd, heq⟩ | ⟨p, hg, hd, heq⟩ <;> rw [heq]
  · exact ⟨⟨hnd, hsub, hnex⟩, fun _ => ⟨⟨hnd, hsub, hnex⟩, hfl⟩⟩
  · obtain ⟨hv, hp, ha⟩ := fetchGuard_eq_some hg
    have hpt : p ∉ st.detailTrace := fun hmem => hp (hfl p hmem)
    refine ⟨⟨?_, hsub, ?_⟩, fun hcon => absurd hcon (by simp)⟩
    · simpa using List.Nodup.append hnd (List.nodup_singleton p)
        (by intro a hma hmb; simp at hmb; subst hmb; exact hpt hma)
    · intro q hq
      rcases (by simpa using hq : q ∈ st.detailTrace ∨ q = p) with hq1 | hq2
      · exact hnex q hq1
      · subst hq2
        exact fun hqe => hp (hsub hqe)
  · obtain ⟨hv, hp, ha⟩ := fetchGuard_eq_some hg
    have hpt : p ∉ st.detailTrace := fun hmem => hp (hfl p hmem)
    obtain ⟨h1, h2, h3, _, _, _, _⟩ :=
      hitAppend_spec cfg kw clat clng st p (pyStrip h.name)
    have hnd' :
        (hitAppend cfg kw clat clng st p (pyStrip h.name)).detailTrace.Nodup := by
      rw [h3]
      exact List.Nodup.append hnd (List.nodup_singleton p)
        (by intro a hma hmb; simp at hmb; subst hmb; exact hpt hma)
    have hsub' : ex ⊆ (hitAppend cfg kw clat clng st p (pyStrip h.name)).seen := by
      rw [h2]
      exact hsub.trans (Finset.subset_insert _ _)
    have hnex' : ∀ q ∈
        (hitAppend cfg kw clat clng st p (pyStrip h.name)).detailTrace,
        q ∉ ex := by
      rw [h3]
      intro q hq
      rcases List.mem_append.mp hq with h4 | h5
      · exact hnex q h4
      · simp at h5; subst h5
        exact fun hqe => hp (hsub hqe)
    have hfl' : ∀ q ∈
        (hitAppend cfg kw clat clng st p (pyStrip h.name)).detailTrace,
        q ∈ (hitAppend cfg kw clat clng st p (pyStrip h.name)).seen := by
      rw [h3, h2]
      intro q hq
      rcases List.mem_append.mp hq with h4 | h5
      · exact Finset.mem_insert_of_mem (hfl q h4)
      · simp at h5; subst h5
        exact Finset.mem_insert_self _ _
    exact ⟨⟨hnd', hsub', hnex'⟩,
      fun _ => ⟨⟨hnd', hsub', hnex'⟩, hfl'⟩⟩

theorem collect_dtrace (cfg : OConfig) (env : UpEnv)
    (centers : List (ℚ × ℚ)) (existing : Finset String) :
    DTraceInv existing (collect_for_state cfg env centers existing).st := by
  have h0 : DTraceFull existing (initState cfg existing) := by
    refine ⟨⟨List.nodup_nil, fun x hx => hx, ?_⟩, ?_⟩ <;> intro p hp <;>
      cases hp
  obtain ⟨hp, _⟩ := centersLoop_pres cfg env (DTraceInv existing)
    (DTraceFull existing)
    (fun kw clat clng st n h hq => hitStep_dtrace existing cfg env kw clat
      clng st n h hq)
    (fun st q data _ hq => hq)
    (fun st q e _ hq => hq.1)
    (fun st c hq => hq)
    (fun st hq => hq.1)
    centers (initState cfg existing) h0
  rw [collect_st_eq]
  obtain ⟨_, _, hseen, _, _, hdt, _, _⟩ :=
    drainState_spec (centersLoop cfg env centers (initState cfg existing)).st
  obtain ⟨i1, i2, i3⟩ := hp
  exact ⟨by rw [hdt]; exact i1, by rw [hseen]; exact i2,
    by rw [hdt]; exact i3⟩

theorem collect_reqcount (cfg : OConfig) (env : UpEnv)
    (centers : List (ℚ × ℚ)) (existing : Finset String)
    (hok : (centersLoop cfg env centers (initState cfg existing)).res =
      .ok ()) :
    (collect_for_state cfg env centers existing).st.totalRequests =
      (collect_for_state cfg env centers existing).st.searchTrace.length := by
  obtain ⟨_, hq⟩ := centersLoop_pres cfg env (fun _ => True)
    (fun st => st.totalRequests = st.searchTrace.length)
    (fun kw clat clng st n h hq => by
      obtain ⟨f1, f2, _, _⟩ := hitStep_frame cfg env kw clat clng st n h
      refine ⟨trivial, fun _ => ?_⟩
      show (hitStep cfg env kw clat clng st n h).st.totalRequests =
        (hitStep cfg env kw clat clng st n h).st.searchTrace.length
      rw [f1, f2]
      exact hq)
    (fun st q data _ hq => by simp [hq])
    (fun st q e _ _ => trivial)
    (fun st c hq => hq)
    (fun _ _ => trivial)
    centers (initState cfg existing) rfl
  have hinv := hq hok
  rw [collect_st_eq]
  obtain ⟨_, _, _, _, htot, _, htr, _⟩ :=
    drainState_spec (centersLoop cfg env centers (initState cfg existing)).st
  rw [htot, htr, hinv]

theorem capReached_none {cfg : OConfig} (h : cfg.stop_after_new = none)
    (n : Nat) : capReached cfg n = false := by
  unfold capReached
  rw [h]

theorem shouldSkip_false {cfg : OConfig}
    (h : cfg.skip_overlap_centers = false) (pr : List (ℚ × ℚ × Nat))
    (a b : ℚ) : shouldSkipCenter cfg pr a b = false := by
  unfold shouldSkipCenter
  rw [h]
  simp

theorem runStep_seen_mono {st st' : RunState} (h : RunStep st st') :
    st.seen ⊆ st'.seen := by
  obtain ⟨new, _, _, _, h4⟩ := h
  rw [h4]
  exact Finset.subset_union_left

theorem fetchGuard_none_mem {s : Finset String} {h : RawHit} {p : String}
    (hg : fetchGuard s h = none) (hv : validPid h.place_id = some p)
    (ha : acceptName (pyLower (pyStrip h.name)) = true) : p ∈ s := by
  by_contra hp
  simp [fetchGuard, hv, hp, ha] at hg

theorem fetchGuard_none_of_covered {s0 : Finset String} {h : RawHit}
    (hcov : ∀ p, validPid h.place_id = some p →
      acceptName (pyLower (pyStrip h.name)) = true → p ∈ s0) :
    fetchGuard s0 h = none := by
  cases hv : validPid h.place_id with
  | none => simp [fetchGuard, hv]
  | some p =>
    by_cases hp : p ∈ s0
    · simp [fetchGuard, hv, hp]
    · cases ha : acceptName (pyLower (pyStrip h.name)) with
      | false => simp [fetchGuard, hv, hp, ha]
      | true => exact absurd (hcov p hv ha) hp

theorem hitsLoop_covers (cfg : OConfig) (env : UpEnv) (kw : String)
    (clat clng : ℚ) (hstop : cfg.stop_after_new = none) :
    ∀ (hits : List RawHit) (st : RunState) (n : Nat),
      (hitsLoop cfg env kw clat clng hits st n).res = .ok () →
      ∀ h ∈ hits, ∀ p, validPid h.place_id = some p →
        acceptName (pyLower (pyStrip h.name)) = true →
        p ∈ (hitsLoop cfg env kw clat clng hits st n).st.seen := by
  intro hits
  induction hits with
  | nil => intro st n _ h hmem; cases hmem
  | cons h0 rest ih =>
    intro st n hres h hmem p hv ha
    rcases hitStep_cases cfg env kw clat clng st n h0 with
      ⟨hg, heq⟩ | ⟨q, e, hg, hd, heq⟩ | ⟨q, hg, hd, heq⟩
    · simp only [hitsLoop, heq, capReached_none hstop, if_false] at hres ⊢
      rcases List.mem_cons.mp hmem with hh | hh
      · subst hh
        have hp0 : p ∈ st.seen := fetchGuard_none_mem hg hv ha
        exact runStep_seen_mono
          (hitsLoop_runStep cfg env kw clat clng rest st n) hp0
      · exact ih st n hres h hh p hv ha
    · simp only [hitsLoop, heq] at hres
      exact absurd hres (by simp)
    · simp only [hitsLoop, heq, capReached_none hstop, if_false] at hres ⊢
      rcases List.mem_cons.mp hmem with hh | hh
      · subst hh
        obtain ⟨hv2, hp2, _⟩ := fetchGuard_eq_some hg
        rw [hv] at hv2
        injection hv2 with h2
        subst h2
        have hp0 : p ∈ (hitAppend cfg kw clat clng st p
            (pyStrip h.name)).seen := by
          obtain ⟨_, h2, _⟩ :=
            hitAppend_spec cfg kw clat clng st p (pyStrip h.name)
          rw [h2]
          exact Finset.mem_insert_self _ _
        exact runStep_seen_mono
          (hitsLoop_runStep cfg env kw clat clng rest _ _) hp0
      · exact ih _ _ hres h hh p hv ha

theorem pagesLoop_eq_hitsErr (cfg : OConfig) (env : UpEnv) (kw : String)
    (clat clng : ℚ) (fuel : Nat) (data : SearchResponse) (pc : Nat)
    (st : RunState) (n : Nat) (e : String)
    (habort : ¬ (1 < pc ∧ n = 0))
    (hr : (hitsLoop cfg env kw clat clng data.results st n).res = .error e) :
    pagesLoop cfg env kw clat clng fuel data pc st n =
      ⟨(hitsLoop cfg env kw clat clng data.results st n).st,
       (hitsLoop cfg env kw clat clng data.results st n).newCount,
       .error e⟩ := by
  cases fuel <;> (rw [pagesLoop]; simp [habort, hr])

theorem pagesLoop_eq_cap (cfg : OConfig) (env : UpEnv) (kw : String)
    (clat clng : ℚ) (fuel : Nat) (data : SearchResponse) (pc : Nat)
    (st : RunState) (n : Nat)
    (habort : ¬ (1 < pc ∧ n = 0))
    (hr : (hitsLoop cfg env kw clat clng data.results st n).res = .ok ())
    (hc : capReached cfg
      (hitsLoop cfg env kw clat clng data.results st n).newCount = true) :
    pagesLoop cfg env kw clat clng fuel data pc st n =
      ⟨(hitsLoop cfg env kw clat clng data.results st n).st,
       (hitsLoop cfg env kw clat clng data.results st n).newCount,
       .ok ()⟩ := by
  cases fuel <;> (rw [pagesLoop]; simp [habort, hr, hc])

theorem pagesLoop_eq_noTok (cfg : OConfig) (env : UpEnv) (kw : String)
    (clat clng : ℚ) (fuel : Nat) (data : SearchResponse) (pc : Nat)
    (st : RunState) (n : Nat)
    (habort : ¬ (1 < pc ∧ n = 0))
    (hr : (hitsLoop cfg env kw clat clng data.results st n).res = .ok ())
    (hc : capReached cfg
      (hitsLoop cfg env kw clat clng data.results st n).newCount = false)
    (htok : data.next_page_token = none) :
    pagesLoop cfg env kw clat clng fuel data pc st n =
      ⟨(hitsLoop cfg env kw clat clng data.results st n).st,
       (hitsLoop cfg env kw clat clng data.results st n).newCount,
       .ok ()⟩ := by
  cases fuel <;> (rw [pagesLoop]; simp [habort, hr, hc, htok])

theorem pagesLoop_eq_fuel0 (cfg : OConfig) (env : UpEnv) (kw : String)
    (clat clng : ℚ) (data : SearchResponse) (pc : Nat)
    (st : RunState) (n : Nat) (tok : String)
    (habort : ¬ (1 < pc ∧ n = 0))
    (hr : (hitsLoop cfg env kw clat clng data.results st n).res = .ok ())
    (hc : capReached cfg
      (hitsLoop cfg env kw clat clng data.results st n).newCount = false)
    (htok : data.next_page_token = some tok) :
    pagesLoop cfg env kw clat clng 0 data pc st n =
      ⟨(hitsLoop cfg env kw clat clng data.results st n).st,
       (hitsLoop cfg env kw clat clng data.results st n).newCount,
       .ok ()⟩ := by
  rw [pagesLoop]
  simp [habort, hr, hc, htok]

theorem pagesLoop_eq_searchErr (cfg : OConfig) (env : UpEnv) (kw : String)
    (clat clng : ℚ) (fuel' : Nat) (data : SearchResponse) (pc : Nat)
    (st : RunState) (n : Nat) (tok : String) (e : String)
    (habort : ¬ (1 < pc ∧ n = 0))
    (hr : (hitsLoop cfg env kw clat clng data.results st n).res = .ok ())
    (hc : capReached cfg
      (hitsLoop cfg env kw clat clng data.results st n).newCount = false)
    (htok : data.next_page_token = some tok)
    (hs : env.search ⟨clat, clng, kw, some tok⟩ = .error e) :
    pagesLoop cfg env kw clat clng (fuel' + 1) data pc st n =
      ⟨{ (hitsLoop cfg env kw clat clng data.results st n).st with
           searchTrace :=
             (hitsLoop cfg env kw clat clng data.results st n).st.searchTrace
               ++ [⟨clat, clng, kw, some tok⟩] },
       (hitsLoop cfg env kw clat clng data.results st n).newCount,
       .error e⟩ := by
  rw [pagesLoop]
  simp [habort, hr, hc, htok, hs]

theorem pagesLoop_eq_cont (cfg : OConfig) (env : UpEnv) (kw : String)
    (clat clng : ℚ) (fuel' : Nat) (data : SearchResponse) (pc : Nat)
    (st : RunState) (n : Nat) (tok : String) (data' : SearchResponse)
    (habort : ¬ (1 < pc ∧ n = 0))
    (hr : (hitsLoop cfg env kw clat clng data.results st n).res = .ok ())
    (hc : capReached cfg
      (hitsLoop cfg env kw clat clng data.results st n).newCount = false)
    (htok : data.next_page_token = some tok)
    (hs : env.search ⟨clat, clng, kw, some tok⟩ = .ok data') :
    pagesLoop cfg env kw clat clng (fuel' + 1) data pc st n =
      pagesLoop cfg env kw clat clng fuel' data' (pc + 1)
        { (hitsLoop cfg env kw clat clng data.results st n).st with
            searchTrace :=
              (hitsLoop cfg env kw clat clng data.results st n).st.searchTrace
                ++ [⟨clat, clng, kw, some tok⟩],
            totalRequests :=
              (hitsLoop cfg env kw clat clng data.results st n).st.totalRequests
                + 1 }
        (hitsLoop cfg env kw clat clng data.results st n).newCount := by
  rw [pagesLoop]
  simp [habort, hr, hc, htok, hs]

theorem keywordStep_eq_err (cfg : OConfig) (env : UpEnv) (clat clng : ℚ)
    (st : RunState) (n : Nat) (kw : String) (e : String)
    (hs : env.search ⟨clat, clng, kw, none⟩ = .error e) :
    keywordStep cfg env clat clng st n kw =
      ⟨{ st with searchTrace := st.searchTrace ++ [⟨clat, clng, kw, none⟩] },
       n, .error e⟩ := by
  unfold keywordStep
  simp [hs]

theorem keywordStep_eq_ok (cfg : OConfig) (env : UpEnv) (clat clng : ℚ)
    (st : RunState) (n : Nat) (kw : String) (data : SearchResponse)
    (hs : env.search ⟨clat, clng, kw, none⟩ = .ok data) :
    keywordStep cfg env clat clng st n kw =
      pagesLoop cfg env kw clat clng cfg.page_fuel data 1
        { st with
            searchTrace := st.searchTrace ++ [⟨clat, clng, kw, none⟩],
            totalRequests := st.totalRequests + 1 } n := by
  unfold keywordStep
  simp [hs]

theorem pagesLoop_covers (cfg : OConfig) (env : UpEnv) (kw : String)
    (clat clng : ℚ) (hstop : cfg.stop_after_new = none) :
    ∀ (fuel : Nat) (data : SearchResponse) (st : RunState) (n : Nat),
      (pagesLoop cfg env kw clat clng fuel data 1 st n).res = .ok () →
      ∀ h ∈ data.results, ∀ p, validPid h.place_id = some p →
        acceptName (pyLower (pyStrip h.name)) = true →
        p ∈ (pagesLoop cfg env kw clat clng fuel data 1 st n).st.seen := by
  intro fuel data st n hres h hmem p hv ha
  have habort : ¬ ((1 : Nat) < 1 ∧ n = 0) := by omega
  cases hr : (hitsLoop cfg env kw clat clng data.results st n).res with
  | error e =>
    rw [pagesLoop_eq_hitsErr cfg env kw clat clng fuel data 1 st n e habort
      hr] at hres
    exact absurd hres (by simp)
  | ok u =>
    cases u
    have hc := capReached_none hstop
      (hitsLoop cfg env kw clat clng data.results st n).newCount
    have hp0 := hitsLoop_covers cfg env kw clat clng hstop data.results st n
      hr h hmem p hv ha
    cases htok : data.next_page_token with
    | none =>
      rw [pagesLoop_eq_noTok cfg env kw clat clng fuel data 1 st n habort hr
        hc htok]
      exact hp0
    | some tok =>
      cases fuel with
      | zero =>
        rw [pagesLoop_eq_fuel0 cfg env kw clat clng data 1 st n tok habort
          hr hc htok]
        exact hp0
      | succ fuel' =>
        cases hs : env.search ⟨clat, clng, kw, some tok⟩ with
        | error e =>
          rw [pagesLoop_eq_searchErr cfg env kw clat clng fuel' data 1 st n
            tok e habort hr hc htok hs] at hres
          exact absurd hres (by simp)
        | ok data' =>
          rw [pagesLoop_eq_cont cfg env kw clat clng fuel' data 1 st n tok
            data' habort hr hc htok hs]
          exact runStep_seen_mono
            (runStep_trans (runStep_of_eq rfl rfl rfl)
              (pagesLoop_step cfg env kw clat clng fuel' data' 2 _ _).1) hp0

theorem keywordStep_covers (cfg : OConfig) (env : UpEnv) (clat clng : ℚ)
    (hstop : cfg.stop_after_new = none) (st : RunState) (n : Nat)
    (kw : String)
    (hres : (keywordStep cfg env clat clng st n kw).res = .ok ())
    (data : SearchResponse)
    (hs : env.search ⟨clat, clng, kw, none⟩ = .ok data) :
    ∀ h ∈ data.results, ∀ p, validPid h.place_id = some p →
      acceptName (pyLower (pyStrip h.name)) = true →
      p ∈ (keywordStep cfg env clat clng st n kw).st.seen := by
  intro h hmem p hv ha
  rw [keywordStep_eq_ok cfg env clat clng st n kw data hs] at hres ⊢
  exact pagesLoop_covers cfg env kw clat clng hstop cfg.page_fuel data _ n
    hres h hmem p hv ha

theorem keywordsLoop_covers (cfg : OConfig) (env : UpEnv) (clat clng : ℚ)
    (hstop : cfg.stop_after_new = none) :
    ∀ (kws : List String) (st : RunState) (n : Nat),
      (keywordsLoop cfg env clat clng kws st n).res = .ok () →
      ∀ kw ∈ kws, ∀ data, env.search ⟨clat, clng, kw, none⟩ = .ok data →
        ∀ h ∈ data.results, ∀ p, validPid h.place_id = some p →
          acceptName (pyLower (pyStrip h.name)) = true →
          p ∈ (keywordsLoop cfg env clat clng kws st n).st.seen := by
  intro kws
  induction kws with
  | nil => intro st n _ kw hmem; cases hmem
  | cons kw0 rest ih =>
    intro st n hres kw hmem data hs h hh p hv ha
    rw [keywordsLoop] at hres ⊢
    simp only [capReached_none hstop, if_false] at hres ⊢
    cases hr : (keywordStep cfg env clat clng st n kw0).res with
    | error e =>
      simp only [hr] at hres
      exact absurd hres (by simp)
    | ok u =>
      cases u
      simp only [hr] at hres ⊢
      rcases List.mem_cons.mp hmem with hk | hk
      · subst hk
        have hp0 := keywordStep_covers cfg env clat clng hstop st n kw hr
          data hs h hh p hv ha
        exact runStep_seen_mono
          (keywordsLoop_step cfg env clat clng rest _ _).1 hp0
      · exact ih _ _ hres kw hk data hs h hh p hv ha

theorem centersLoop_covers (cfg : OConfig) (env : UpEnv)
    (hstop : cfg.stop_after_new = none)
    (hskip : cfg.skip_overlap_centers = false) :
    ∀ (centers : List (ℚ × ℚ)) (st : RunState),
      (centersLoop cfg env centers st).res = .ok () →
      ∀ c ∈ centers, ∀ kw ∈ cfg.keywords, ∀ data,
        env.search ⟨c.1, c.2, kw, none⟩ = .ok data →
        ∀ h ∈ data.results, ∀ p, validPid h.place_id = some p →
          acceptName (pyLower (pyStrip h.name)) = true →
          p ∈ (centersLoop cfg env centers st).st.seen := by
  intro centers
  induction centers with
  | nil => intro st _ c hmem; cases hmem
  | cons c0 rest ih =>
    intro st hres c hmem kw hkw data hs h hh p hv ha
    have hcs : centerStep cfg env st c0 =
        (match (keywordsLoop cfg env c0.1 c0.2 cfg.keywords st 0).res with
          | .error e =>
            ⟨(keywordsLoop cfg env c0.1 c0.2 cfg.keywords st 0).st, .error e⟩
          | .ok _ =>
            ⟨{ (keywordsLoop cfg env c0.1 c0.2 cfg.keywords st 0).st with
                 processed :=
                   (keywordsLoop cfg env c0.1 c0.2 cfg.keywords st 0).st.processed
                     ++ [(c0.1, c0.2,
                       (keywordsLoop cfg env c0.1 c0.2 cfg.keywords st 0).newCount)] },
             .ok ()⟩) := by
      unfold centerStep
      rw [shouldSkip_false hskip]
      simp
    cases hkr : (keywordsLoop cfg env c0.1 c0.2 cfg.keywords st 0).res with
    | error e =>
      rw [centersLoop] at hres
      rw [hcs] at hres
      simp only [hkr] at hres
      simp at hres
    | ok u =>
      cases u
      rw [centersLoop] at hres ⊢
      rw [hcs] at hres ⊢
      simp only [hkr] at hres ⊢
      rcases List.mem_cons.mp hmem with hc0 | hc0
      · subst hc0
        have hp0 := keywordsLoop_covers cfg env c.1 c.2 hstop cfg.keywords
          st 0 hkr kw hkw data hs h hh p hv ha
        exact runStep_seen_mono
          (runStep_trans (runStep_of_eq rfl rfl rfl)
            (centersLoop_step cfg env rest _).1) hp0
      · exact ih _ hres c hc0 kw hkw data hs h hh p hv ha

theorem collect_covers (cfg : OConfig) (env : UpEnv)
    (centers : List (ℚ × ℚ)) (existing : Finset String)
    (hstop : cfg.stop_after_new = none)
    (hskip : cfg.skip_overlap_centers = false)
    (hok : (centersLoop cfg env centers (initState cfg existing)).res =
      .ok ()) :
    ∀ c ∈ centers, ∀ kw ∈ cfg.keywords, ∀ data,
      env.search ⟨c.1, c.2, kw, none⟩ = .ok data →
      ∀ h ∈ data.results, ∀ p, validPid h.place_id = some p →
        acceptName (pyLower (pyStrip h.name)) = true →
        p ∈ (collect_for_state cfg env centers existing).st.seen := by
  intro c hmem kw hkw data hs h hh p hv ha
  rw [collect_st_eq]
  obtain ⟨_, _, hseen, _⟩ :=
    drainState_spec (centersLoop cfg env centers (initState cfg existing)).st
  rw [hseen]
  exact centersLoop_covers cfg env hstop hskip centers
    (initState cfg existing) hok c hmem kw hkw data hs h hh p hv ha

theorem hitStep_skip {cfg : OConfig} {env : UpEnv} {kw : String}
    {clat clng : ℚ} {st : RunState} {n : Nat} {h : RawHit}
    (hg : fetchGuard st.seen h = none) :
    hitStep cfg env kw clat clng st n h = ⟨st, n, .ok ()⟩ := by
  rcases hitStep_cases cfg env kw clat clng st n h with
    ⟨_, heq⟩ | ⟨p, e, hg2, _, _⟩ | ⟨p, hg2, _, _⟩
  · exact heq
  · rw [hg] at hg2; cases hg2
  · rw [hg] at hg2; cases hg2

theorem hitsLoop_skips (cfg : OConfig) (env : UpEnv) (kw : String)
    (clat clng : ℚ) :
    ∀ (hits : List RawHit) (st : RunState) (n : Nat),
      (∀ h ∈ hits, fetchGuard st.seen h = none) →
      hitsLoop cfg env kw clat clng hits st n = ⟨st, n, .ok ()⟩ := by
  intro hits
  induction hits with
  | nil => intro st n _; rfl
  | cons h0 rest ih =>
    intro st n hall
    have heq := @hitStep_skip cfg env kw clat clng st n h0 (hall h0 (by simp))
    simp only [hitsLoop, heq]
    by_cases hc : capReached cfg n
    · simp [hc]
    · simp only [hc, if_false]
      exact ih st n (fun h hh => hall h (by simp [hh]))

theorem pagesLoop_page1_skips (cfg : OConfig) (env : UpEnv) (kw : String)
    (clat clng : ℚ) (fuel : Nat) (data : SearchResponse) (st : RunState)
    (hall : ∀ h ∈ data.results, fetchGuard st.seen h = none) :
    (pagesLoop cfg env kw clat clng fuel data 1 st 0).st.seen = st.seen ∧
    (pagesLoop cfg env kw clat clng fuel data 1 st 0).st.sheetRows =
      st.sheetRows ∧
    (pagesLoop cfg env kw clat clng fuel data 1 st 0).st.buffer =
      st.buffer ∧
    (pagesLoop cfg env kw clat clng fuel data 1 st 0).newCount = 0 := by
  have hh := hitsLoop_skips cfg env kw clat clng data.results st 0 hall
  have habort : ¬ ((1 : Nat) < 1 ∧ (0 : Nat) = 0) := by omega
  cases hcb : capReached cfg 0 with
  | true =>
    rw [pagesLoop_eq_cap cfg env kw clat clng fuel data 1 st 0 habort
      (by rw [hh]) (by rw [hh]; exact hcb), hh]
    exact ⟨rfl, rfl, rfl, rfl⟩
  | false =>
    cases htok : data.next_page_token with
    | none =>
      rw [pagesLoop_eq_noTok cfg env kw clat clng fuel data 1 st 0 habort
        (by rw [hh]) (by rw [hh]; exact hcb) htok, hh]
      exact ⟨rfl, rfl, rfl, rfl⟩
    | some tok =>
      cases fuel with
      | zero =>
        rw [pagesLoop_eq_fuel0 cfg env kw clat clng data 1 st 0 tok habort
          (by rw [hh]) (by rw [hh]; exact hcb) htok, hh]
        exact ⟨rfl, rfl, rfl, rfl⟩
      | succ fuel' =>
        cases hs : env.search ⟨clat, clng, kw, some tok⟩ with
        | error e =>
          rw [pagesLoop_eq_searchErr cfg env kw clat clng fuel' data 1 st 0
            tok e habort (by rw [hh]) (by rw [hh]; exact hcb) htok hs, hh]
          exact ⟨rfl, rfl, rfl, rfl⟩
        | ok data' =>
          rw [pagesLoop_eq_cont cfg env kw clat clng fuel' data 1 st 0 tok
            data' habort (by rw [hh]) (by rw [hh]; exact hcb) htok hs]
          rw [hh]
          rw [pagesLoop_abort cfg env kw clat clng fuel' data' 2 _ 0
            (by omega) rfl]
          exact ⟨rfl, rfl, rfl, rfl⟩

theorem keywordStep_skips (cfg : OConfig) (env : UpEnv) (clat clng : ℚ)
    (st : RunState) (kw : String)
    (hall : ∀ data, env.search ⟨clat, clng, kw, none⟩ = .ok data →
      ∀ h ∈ data.results, fetchGuard st.seen h = none) :
    (keywordStep cfg env clat clng st 0 kw).st.seen = st.seen ∧
    (keywordStep cfg env clat clng st 0 kw).st.sheetRows = st.sheetRows ∧
    (keywordStep cfg env clat clng st 0 kw).st.buffer = st.buffer ∧
    (keywordStep cfg env clat clng st 0 kw).newCount = 0 := by
  cases hs : env.search ⟨clat, clng, kw, none⟩ with
  | error e =>
    rw [keywordStep_eq_err cfg env clat clng st 0 kw e hs]
    refine ⟨?_, ?_, ?_, ?_⟩ <;> trivial
  | ok data =>
    rw [keywordStep_eq_ok cfg env clat clng st 0 kw data hs]
    exact pagesLoop_page1_skips cfg env kw clat clng cfg.page_fuel data
      { st with
          searchTrace := st.searchTrace ++ [⟨clat, clng, kw, none⟩],
          totalRequests := st.totalRequests + 1 }
      (fun h hh => hall data hs h hh)

theorem keywordsLoop_skips (cfg : OConfig) (env : UpEnv) (clat clng : ℚ) :
    ∀ (kws : List String) (st : RunState),
      (∀ kw ∈ kws, ∀ data, env.search ⟨clat, clng, kw, none⟩ = .ok data →
        ∀ h ∈ data.results, fetchGuard st.seen h = none) →
      (keywordsLoop cfg env clat clng kws st 0).st.seen = st.seen ∧
      (keywordsLoop cfg env clat clng kws st 0).st.sheetRows =
        st.sheetRows ∧
      (keywordsLoop cfg env clat clng kws st 0).st.buffer = st.buffer := by
  intro kws
  induction kws with
  | nil => intro st _; exact ⟨rfl, rfl, rfl⟩
  | cons kw0 rest ih =>
    intro st hall
    rw [keywordsLoop]
    by_cases hc : capReached cfg 0
    · simp only [hc, if_true]
      refine ⟨?_, ?_, ?_⟩ <;> trivial
    · simp only [hc, if_false]
      obtain ⟨k1, k2, k3, k4⟩ := keywordStep_skips cfg env clat clng st kw0
        (fun data hs h hh => hall kw0 (by simp) data hs h hh)
      cases hr : (keywordStep cfg env clat clng st 0 kw0).res with
      | error e =>
        simp only [hr]
        exact ⟨k1, k2, k3⟩
      | ok u =>
        cases u
        simp only [hr, k4]
        obtain ⟨g1, g2, g3⟩ := ih (keywordStep cfg env clat clng st 0 kw0).st
          (by
            intro kw hkw data hs h hh
            rw [k1]
            exact hall kw (by simp [hkw]) data hs h hh)
        exact ⟨g1.trans k1, g2.trans k2, g3.trans k3⟩

theorem centersLoop_skips (cfg : OConfig) (env : UpEnv)
    (hskip : cfg.skip_overlap_centers = false) :
    ∀ (centers : List (ℚ × ℚ)) (st : RunState),
      (∀ c ∈ centers, ∀ kw ∈ cfg.keywords, ∀ data,
        env.search ⟨c.1, c.2, kw, none⟩ = .ok data →
        ∀ h ∈ data.results, fetchGuard st.seen h = none) →
      (centersLoop cfg env centers st).st.seen = st.seen ∧
      (centersLoop cfg env centers st).st.sheetRows = st.sheetRows ∧
      (centersLoop cfg env centers st).st.buffer = st.buffer := by
  intro centers
  induction centers with
  | nil => intro st _; exact ⟨rfl, rfl, rfl⟩
  | cons c0 rest ih =>
    intro st hall
    obtain ⟨k1, k2, k3⟩ := keywordsLoop_skips cfg env c0.1 c0.2
      cfg.keywords st
      (fun kw hkw data hs h hh => hall c0 (by simp) kw hkw data hs h hh)
    have hcs : centerStep cfg env st c0 =
        (match (keywordsLoop cfg env c0.1 c0.2 cfg.keywords st 0).res with
          | .error e =>
            ⟨(keywordsLoop cfg env c0.1 c0.2 cfg.keywords st 0).st, .error e⟩
          | .ok _ =>
            ⟨{ (keywordsLoop cfg env c0.1 c0.2 cfg.keywords st 0).st with
                 processed :=
                   (keywordsLoop cfg env c0.1 c0.2 cfg.keywords st 0).st.processed
                     ++ [(c0.1, c0.2,
                       (keywordsLoop cfg env c0.1 c0.2 cfg.keywords st 0).newCount)] },
             .ok ()⟩) := by
      unfold centerStep
      rw [shouldSkip_false hskip]
      simp
    rw [centersLoop, hcs]
    cases hkr : (keywordsLoop cfg env c0.1 c0.2 cfg.keywords st 0).res with
    | error e =>
      simp only [hkr]
      exact ⟨k1, k2, k3⟩
    | ok u =>
      cases u
      simp only [hkr]
      obtain ⟨g1, g2, g3⟩ := ih
        { (keywordsLoop cfg env c0.1 c0.2 cfg.keywords st 0).st with
            processed :=
              (keywordsLoop cfg env c0.1 c0.2 cfg.keywords st 0).st.processed
                ++ [(c0.1, c0.2,
                  (keywordsLoop cfg env c0.1 c0.2 cfg.keywords st 0).newCount)] }
        (by
          intro c hc kw hkw data hs h hh
          show fetchGuard (keywordsLoop cfg env c0.1 c0.2 cfg.keywords st 0).st.seen h = none
          rw [k1]
          exact hall c (by simp [hc]) kw hkw data hs h hh)
      refine ⟨g1.trans ?_, g2.trans ?_, g3.trans ?_⟩ <;>
        first
          | exact k1
          | exact k2
          | exact k3

theorem drain_runStep (st : RunState) : RunStep st (drainState st) := by
  obtain ⟨hb, hs, hn, _⟩ := drainState_spec st
  refine ⟨[], ?_, by simp [pids], by simp [pids], by simp [hn, pids]⟩
  rw [hb, hs]

theorem collect_runStep (cfg : OConfig) (env : UpEnv)
    (centers : List (ℚ × ℚ)) (existing : Finset String) :
    RunStep (initState cfg existing)
      (collect_for_state cfg env centers existing).st := by
  rw [collect_st_eq]
  exact runStep_trans
    (centersLoop_step cfg env centers (initState cfg existing)).1
    (drain_runStep _)

theorem collect_decomp (cfg : OConfig) (env : UpEnv)
    (centers : List (ℚ × ℚ)) (existing : Finset String) :
    (collect_for_state cfg env centers existing).st.buffer = [] ∧
    (pids (collect_for_state cfg env centers existing).st.sheetRows).Nodup ∧
    (∀ q ∈ pids (collect_for_state cfg env centers existing).st.sheetRows,
      q ∉ existing) ∧
    (collect_for_state cfg env centers existing).st.seen =
      existing ∪
        (pids (collect_for_state cfg env centers
          existing).st.sheetRows).toFinset := by
  have hb : (collect_for_state cfg env centers existing).st.buffer = [] := by
    rw [collect_st_eq]
    exact (drainState_spec _).1
  obtain ⟨new, h1, h2, h3, h4⟩ := collect_runStep cfg env centers existing
  have hsheet : (collect_for_state cfg env centers existing).st.sheetRows =
      new := by
    have h1' := h1
    rw [hb] at h1'
    simpa [initState] using h1'
  rw [hsheet]
  exact ⟨hb, h2, fun q hq => h3 q hq, h4⟩

theorem collect_append_nodup (cfg : OConfig) (env : UpEnv)
    (centers : List (ℚ × ℚ)) (d : List Row) (hnd : (pids d).Nodup) :
    (pids (d ++
      (collect_for_state cfg env centers
        (pids d).toFinset).st.sheetRows)).Nodup := by
  obtain ⟨_, h2, h3, _⟩ := collect_decomp cfg env centers (pids d).toFinset
  rw [pids_append]
  refine List.Nodup.append hnd h2 ?_
  intro q hq hq2
  exact h3 q hq2 (List.mem_toFinset.mpr hq)

theorem collect_skips (cfg : OConfig) (env : UpEnv)
    (centers : List (ℚ × ℚ)) (existing : Finset String)
    (hskip : cfg.skip_overlap_centers = false)
    (hall : ∀ c ∈ centers, ∀ kw ∈ cfg.keywords, ∀ data,
      env.search ⟨c.1, c.2, kw, none⟩ = .ok data →
      ∀ h ∈ data.results, fetchGuard existing h = none) :
    (collect_for_state cfg env centers existing).st.seen = existing ∧
    (collect_for_state cfg env centers existing).st.sheetRows = [] := by
  obtain ⟨k1, k2, k3⟩ := centersLoop_skips cfg env hskip centers
    (initState cfg existing) hall
  rw [collect_st_eq]
  obtain ⟨_, hs, hn, _⟩ :=
    drainState_spec (centersLoop cfg env centers (initState cfg existing)).st
  constructor
  · rw [hn, k1]
    rfl
  · rw [hs, k2, k3]
    rfl

/-- C1 counterexample: with a per-center cap (`stop_after_new = 1`, a
configuration `collect_for_state` accepts) and keywords `k1, k2`, the first
run stops after `k1` yields one new place and never queries `k2`.  A second
run against the same deterministic upstream, seeded from the rows the first
run left, dedups `k1`'s hit, therefore reaches `k2` and appends a brand-new
row: its `added_count` is 1, not 0, so the claim as stated is false. -/
theorem c1_counterexample :
    (collect_for_state cfgC1 envC1 [(0, 0)]
      (pids ([] : List Row)).toFinset).st.sheetRows.map Row.pid = ["x"] ∧
    (collect_for_state cfgC1 envC1 [(0, 0)]
      (pids (([] : List Row) ++
        (collect_for_state cfgC1 envC1 [(0, 0)]
          (pids ([] : List Row)).toFinset).st.sheetRows)).toFinset).res =
      .ok ⟨1, 2⟩ ∧
    (1 : Nat) ≠ 0 := by
  refine ⟨by decide, by decide, by decide⟩

/-- C1 (amended): provided the destination's `external_id`s are pairwise
distinct before the first run, no `external_id` appears twice among the
destination rows after the second run, for every configuration.  The second
conjunct of the original claim holds under the default optimisation
settings: when no per-center `stop_after_new` cap is set and overlap pruning
is disabled, two consecutive completed runs against the same deterministic
upstream give the second run an `added_count` of 0.  (With the cap or
pruning enabled the second run can reach keywords or centers the first run
skipped, and may legitimately add rows — see the counterexample.) -/
theorem c1_amended :
    (∀ (cfg : OConfig) (env : UpEnv) (centers : List (ℚ × ℚ))
       (d0 : List Row), (pids d0).Nodup →
      (pids (d0 ++
        (collect_for_state cfg env centers (pids d0).toFinset).st.sheetRows ++
        (collect_for_state cfg env centers
          (pids (d0 ++
            (collect_for_state cfg env centers
              (pids d0).toFinset).st.sheetRows)).toFinset).st.sheetRows)).Nodup) ∧
    (∀ (cfg : OConfig) (env : UpEnv) (centers : List (ℚ × ℚ))
       (d0 : List Row) (res1 res2 : RunResult),
      cfg.stop_after_new = none → cfg.skip_overlap_centers = false →
      (collect_for_state cfg env centers (pids d0).toFinset).res =
        .ok res1 →
      (collect_for_state cfg env centers
        (pids (d0 ++
          (collect_for_state cfg env centers
            (pids d0).toFinset).st.sheetRows)).toFinset).res = .ok res2 →
      res2.added_count = 0) := by
  constructor
  · intro cfg env centers d0 hnd
    exact collect_append_nodup cfg env centers _
      (collect_append_nodup cfg env centers d0 hnd)
  · intro cfg env centers d0 res1 res2 hstop hskip h1 h2
    obtain ⟨hok1, _, _⟩ := collect_ok_centers h1
    obtain ⟨_, _, _, hseen1⟩ :=
      collect_decomp cfg env centers (pids d0).toFinset
    have he2 : (pids (d0 ++
        (collect_for_state cfg env centers
          (pids d0).toFinset).st.sheetRows)).toFinset =
        (collect_for_state cfg env centers (pids d0).toFinset).st.seen := by
      rw [pids_append, List.toFinset_append, hseen1]
    have hall : ∀ c ∈ centers, ∀ kw ∈ cfg.keywords, ∀ data,
        env.search ⟨c.1, c.2, kw, none⟩ = .ok data →
        ∀ h ∈ data.results,
          fetchGuard (pids (d0 ++
            (collect_for_state cfg env centers
              (pids d0).toFinset).st.sheetRows)).toFinset h = none := by
      intro c hc kw hkw data hs h hh
      rw [he2]
      refine fetchGuard_none_of_covered ?_
      intro p hv ha
      exact collect_covers cfg env centers (pids d0).toFinset hstop hskip
        hok1 c hc kw hkw data hs h hh p hv ha
    obtain ⟨hseen2, _⟩ := collect_skips cfg env centers _ hskip hall
    obtain ⟨_, ha2, _⟩ := collect_ok_centers h2
    rw [ha2, hseen2]
    simp

/-- Witness for the amended C1 at a concrete two-run scenario. -/
theorem c1_amended_witness :
    ((pids ([] : List Row)).Nodup ∧
      cfgOne.stop_after_new = none ∧
      cfgOne.skip_overlap_centers = false ∧
      (collect_for_state cfgOne envC2 [(0, 0)]
        (pids ([] : List Row)).toFinset).res = .ok ⟨1, 1⟩ ∧
      (collect_for_state cfgOne envC2 [(0, 0)]
        (pids (([] : List Row) ++
          (collect_for_state cfgOne envC2 [(0, 0)]
            (pids ([] : List Row)).toFinset).st.sheetRows)).toFinset).res =
        .ok ⟨0, 1⟩) ∧
    (pids (([] : List Row) ++
      (collect_for_state cfgOne envC2 [(0, 0)]
        (pids ([] : List Row)).toFinset).st.sheetRows ++
      (collect_for_state cfgOne envC2 [(0, 0)]
        (pids (([] : List Row) ++
          (collect_for_state cfgOne envC2 [(0, 0)]
            (pids ([] : List Row)).toFinset).st.sheetRows)).toFinset).st.sheetRows)).Nodup ∧
    (⟨0, 1⟩ : RunResult).added_count = 0 := by
  refine ⟨⟨by decide, rfl, rfl, by decide, by decide⟩, ?_, ?_⟩
  · exact c1_amended.1 cfgOne envC2 [(0, 0)] [] (by decide)
  · exact c1_amended.2 cfgOne envC2 [(0, 0)] [] ⟨1, 1⟩ ⟨0, 1⟩ rfl rfl
      (by decide) (by decide)

/-- C2 counterexample: a run whose single search page carries one accepted
hit issues one nearby-search call and one detail-lookup call (two upstream
calls in total, even with no retries), yet its `RunResult` reports
`api_requests = 1`: `total_requests` (functions.py lines 543, 631) counts
only nearby-search invocations and is never incremented for
`fetch_details` (line 567), so the claimed equality fails. -/
theorem c2_counterexample :
    (collect_for_state cfgOne envC2 [(0, 0)] ∅).res = .ok ⟨1, 1⟩ ∧
    (collect_for_state cfgOne envC2 [(0, 0)] ∅).st.searchTrace.length = 1 ∧
    (collect_for_state cfgOne envC2 [(0, 0)] ∅).st.detailTrace.length = 1 ∧
    (1 : Nat) + 1 ≠ 1 := by
  refine ⟨by decide, by decide, by decide, by decide⟩

/-- C2 (amended): for every run that completes, the reported `api_requests`
equals the number of nearby-search invocations made by the orchestrator
(initial searches plus pagination continuations) — detail lookups and the
clients' internal retry attempts are not counted. -/
theorem c2_amended (cfg : OConfig) (env : UpEnv) (centers : List (ℚ × ℚ))
    (existing : Finset String) (r : RunResult)
    (h : (collect_for_state cfg env centers existing).res = .ok r) :
    r.api_requests =
      (collect_for_state cfg env centers existing).st.searchTrace.length := by
  obtain ⟨hok, _, hapi⟩ := collect_ok_centers h
  rw [hapi]
  exact collect_reqcount cfg env centers existing hok

/-- Witness for the amended C2 at a concrete run. -/
theorem c2_amended_witness :
    (collect_for_state cfgOne envC2 [(0, 0)] ∅).res = .ok ⟨1, 1⟩ ∧
    (⟨1, 1⟩ : RunResult).api_requests =
      (collect_for_state cfgOne envC2 [(0, 0)] ∅).st.searchTrace.length := by
  refine ⟨by decide, c2_amended cfgOne envC2 [(0, 0)] ∅ ⟨1, 1⟩ (by decide)⟩

/-- C3: on every run — normal completion or error — the final state has an
empty write buffer (the `finally` block flushed it to the destination), the
local backup file is closed, the destination receives exactly the sweep's
rows followed by the drained buffer, and an exception escaping the sweep
loop is re-raised unchanged, not suppressed.  (The destination append
performed by the drain is modelled as succeeding.) -/
theorem c3_drain_on_error (cfg : OConfig) (env : UpEnv)
    (centers : List (ℚ × ℚ)) (existing : Finset String) :
    (collect_for_state cfg env centers existing).st.buffer = [] ∧
    (collect_for_state cfg env centers existing).st.csvOpen = false ∧
    (collect_for_state cfg env centers existing).st.sheetRows =
      (centersLoop cfg env centers (initState cfg existing)).st.sheetRows ++
        (centersLoop cfg env centers (initState cfg existing)).st.buffer ∧
    (∀ e, (centersLoop cfg env centers (initState cfg existing)).res =
        .error e →
      (collect_for_state cfg env centers existing).res = .error e) := by
  obtain ⟨d1, d2, _, d4, _⟩ :=
    drainState_spec (centersLoop cfg env centers (initState cfg existing)).st
  refine ⟨?_, ?_, ?_, fun e he => collect_res_err he⟩
  · rw [collect_st_eq]; exact d1
  · rw [collect_st_eq]; exact d4
  · rw [collect_st_eq]; exact d2

/-- Witness for C3 at a concrete erroring run. -/
theorem c3_witness :
    (centersLoop cfgOne envErr [(0, 0)] (initState cfgOne ∅)).res =
      .error "boom" ∧
    (collect_for_state cfgOne envErr [(0, 0)] ∅).res = .error "boom" ∧
    (collect_for_state cfgOne envErr [(0, 0)] ∅).st.buffer = [] ∧
    (collect_for_state cfgOne envErr [(0, 0)] ∅).st.csvOpen = false := by
  have hc := c3_drain_on_error cfgOne envErr [(0, 0)] ∅
  exact ⟨by decide, hc.2.2.2 "boom" (by decide), hc.1, hc.2.1⟩

/-- C4 counterexample: with chunk size 2 and the first two append calls of
the first chunk failing transiently, the third call (the retry after the
second failure) re-sends the same 2-row chunk — not a halved 1-row chunk as
the claim states.  The halved `chunk_size` only takes effect from the next
chunk onward (the remaining rows go out in 1-row chunks). -/
theorem c4_counterexample :
    (append_rows_with_retry outcomeC4 [1, 2, 3, 4] 10 2).1 =
      [[1, 2], [1, 2], [1, 2], [3], [4]] ∧
    (append_rows_with_retry outcomeC4 [1, 2, 3, 4] 10 2).1.map
      List.length = [2, 2, 2, 1, 1] ∧
    ¬ ((append_rows_with_retry outcomeC4 [1, 2, 3, 4] 10 2).1.map
      List.length)[2]? = some 1 := by
  refine ⟨by decide, by decide, by decide⟩

/-- C4 (amended): with no failures, rows are flushed in consecutive chunks
of the configured size (125 rows with chunk size 50 yield exactly three
append calls of 50, 50 and 25 rows); every retry of a failing chunk
re-sends exactly the same chunk; and when a chunk's first two attempts fail
transiently, the `chunk_size` variable is halved (minimum 1) after the
second failure, affecting how the rows after this chunk are sliced. -/
theorem c4_amended :
    ((append_rows_with_retry outcomeOk (List.range 125) 10 50).1.map
      List.length = [50, 50, 25]) ∧
    (∀ (α : Type) (o : Nat → AppendOutcome) (sub : List α)
       (m a cs ci f : Nat),
      ∀ b ∈ (chunkAttemptGo o sub m a cs ci f).calls, b = sub) ∧
    (∀ (α : Type) (o : Nat → AppendOutcome) (sub : List α)
       (m cs ci f : Nat),
      o ci = .transientFail → o (ci + 1) = .transientFail →
      3 ≤ m → 1 < cs →
      chunkAttemptGo o sub m 1 cs ci (f + 2) =
        { calls := sub :: sub ::
            (chunkAttemptGo o sub m 3 (max 1 (cs / 2)) (ci + 2) f).calls,
          callIdx :=
            (chunkAttemptGo o sub m 3 (max 1 (cs / 2)) (ci + 2) f).callIdx,
          chunkSize :=
            (chunkAttemptGo o sub m 3 (max 1 (cs / 2)) (ci + 2) f).chunkSize,
          success :=
            (chunkAttemptGo o sub m 3 (max 1 (cs / 2)) (ci + 2) f).success }) := by
  refine ⟨by set_option maxRecDepth 4000 in decide, ?_, ?_⟩
  · intro α o sub m a cs ci f
    induction f generalizing a cs ci with
    | zero => intro b hb; cases hb
    | succ f ih =>
      intro b hb
      cases ho : o ci with
      | ok =>
        simp only [chunkAttemptGo, ho] at hb
        simpa using hb
      | fatalFail =>
        simp only [chunkAttemptGo, ho] at hb
        simpa using hb
      | transientFail =>
        simp only [chunkAttemptGo, ho] at hb
        by_cases hm : m ≤ a
        · simp only [hm, if_true] at hb
          simpa using hb
        · simp only [hm, if_false] at hb
          rcases List.mem_cons.mp hb with h1 | h1
          · exact h1
          · exact ih _ _ _ b h1
  · intro α o sub m cs ci f h1 h2 hm hcs
    have e1 : ¬ (m ≤ 1) := by omega
    have e2 : ¬ (m ≤ 2) := by omega
    have e3 : ¬ ((2 : Nat) ≤ 1 ∧ 1 < cs) := by omega
    have e4 : ((2 : Nat) ≤ 2 ∧ 1 < cs) := ⟨by omega, hcs⟩
    simp only [chunkAttemptGo, h1, h2, e1, e2, e3, e4, if_false, if_true,
      if_neg, if_pos]
    norm_num [hcs]

/-- Witness for the amended C4 at a concrete chunk-retry scenario. -/
theorem c4_witness :
    (([7] : List Nat) ∈
        (chunkAttemptGo outcomeC4 ([7] : List Nat) 10 1 2 0 7).calls ∧
      outcomeC4 0 = .transientFail ∧ outcomeC4 1 = .transientFail ∧
      (3 : Nat) ≤ 10 ∧ (1 : Nat) < 2) ∧
    ([7] : List Nat) = [7] ∧
    chunkAttemptGo outcomeC4 ([7] : List Nat) 10 1 2 0 (5 + 2) =
      { calls := [7] :: [7] ::
          (chunkAttemptGo outcomeC4 ([7] : List Nat) 10 3 (max 1 (2 / 2))
            (0 + 2) 5).calls,
        callIdx :=
          (chunkAttemptGo outcomeC4 ([7] : List Nat) 10 3 (max 1 (2 / 2))
            (0 + 2) 5).callIdx,
        chunkSize :=
          (chunkAttemptGo outcomeC4 ([7] : List Nat) 10 3 (max 1 (2 / 2))
            (0 + 2) 5).chunkSize,
        success :=
          (chunkAttemptGo outcomeC4 ([7] : List Nat) 10 3 (max 1 (2 / 2))
            (0 + 2) 5).success } := by
  refine ⟨⟨by decide, by decide, by decide, by decide, by decide⟩, ?_, ?_⟩
  · exact c4_amended.2.1 Nat outcomeC4 [7] 10 1 2 0 7 [7] (by decide)
  · exact c4_amended.2.2 Nat outcomeC4 [7] 10 2 0 5 (by decide) (by decide)
      (by decide) (by decide)

theorem transient_not_success {s : String}
    (h : isTransientStatus s = true) : isSearchSuccess s = false := by
  simp only [isTransientStatus, Bool.or_eq_true, decide_eq_true_eq] at h
  rcases h with (h | h) | h <;> subst h <;> decide

theorem nsGo_result_ok (t : Nat → Except String SearchResponse)
    (ht : ∀ k, ∃ d, t k = .ok d) :
    ∀ (fuel attempt : Nat), ∃ d, (nsGo t attempt fuel).result = .ok d := by
  intro fuel
  induction fuel with
  | zero => intro attempt; exact ⟨⟨"FAILED", [], none⟩, rfl⟩
  | succ f ih =>
    intro attempt
    obtain ⟨d, hd⟩ := ht attempt
    cases h1 : isSearchSuccess d.status with
    | true => exact ⟨d, by simp [nsGo, hd, h1]⟩
    | false =>
      cases h2 : isTransientStatus d.status with
      | true =>
        obtain ⟨d', hd'⟩ := ih (attempt + 1)
        exact ⟨d', by simp [nsGo, hd, h1, h2, hd']⟩
      | false => exact ⟨d, by simp [nsGo, hd, h1, h2]⟩

theorem nsGo_calls_le (t : Nat → Except String SearchResponse) :
    ∀ (fuel attempt : Nat), (nsGo t attempt fuel).httpCalls ≤ fuel := by
  intro fuel
  induction fuel with
  | zero => intro a; simp [nsGo]
  | succ f ih =>
    intro a
    cases he : t a with
    | error e => simp [nsGo, he]
    | ok d =>
      cases h1 : isSearchSuccess d.status with
      | true => simp [nsGo, he, h1]
      | false =>
        cases h2 : isTransientStatus d.status with
        | true =>
          have := ih (a + 1)
          simp only [nsGo, he, h1, h2]
          simp
          omega
        | false => simp [nsGo, he, h1, h2]

theorem nsGo_sleeps_shape (t : Nat → Except String SearchResponse) :
    ∀ (fuel attempt : Nat),
      (nsGo t attempt fuel).sleeps =
        (List.range (nsGo t attempt fuel).sleeps.length).map
          (fun i => backoff_sleep (attempt + i)) := by
  intro fuel
  induction fuel with
  | zero => intro a; simp [nsGo]
  | succ f ih =>
    intro a
    cases he : t a with
    | error e => simp [nsGo, he]
    | ok d =>
      cases h1 : isSearchSuccess d.status with
      | true => simp [nsGo, he, h1]
      | false =>
        cases h2 : isTransientStatus d.status with
        | false => simp [nsGo, he, h1, h2]
        | true =>
          simp only [nsGo, he, h1, h2, Bool.false_eq_true, if_false,
            if_true, List.length_cons]
          rw [List.range_succ_eq_map]
          simp only [List.map_cons, List.map_map]
          congr 1
          calc (nsGo t (a + 1) f).sleeps
                = List.map (fun i => backoff_sleep (a + 1 + i))
                    (List.range (nsGo t (a + 1) f).sleeps.length) :=
                  ih (a + 1)
            _ = List.map ((fun i => backoff_sleep (a + i)) ∘ Nat.succ)
                  (List.range (nsGo t (a + 1) f).sleeps.length) := by
                refine List.map_congr_left ?_
                intro i _
                simp only [Function.comp]
                congr 1
                omega

theorem nsGo_exhaust (t : Nat → Except String SearchResponse) :
    ∀ (fuel attempt : Nat),
      (∀ k, attempt ≤ k → k < attempt + fuel →
        ∃ d, t k = .ok d ∧ isTransientStatus d.status = true) →
      (nsGo t attempt fuel).result = .ok ⟨"FAILED", [], none⟩ ∧
      (nsGo t attempt fuel).httpCalls = fuel ∧
      (nsGo t attempt fuel).sleeps.length = fuel := by
  intro fuel
  induction fuel with
  | zero => intro a _; exact ⟨rfl, rfl, rfl⟩
  | succ f ih =>
    intro a hall
    obtain ⟨d, hd, htr⟩ := hall a (Nat.le_refl a) (by omega)
    have hns := transient_not_success htr
    obtain ⟨i1, i2, i3⟩ := ih (a + 1)
      (fun k hk1 hk2 => hall k (by omega) (by omega))
    refine ⟨?_, ?_, ?_⟩ <;>
      simp [nsGo, hd, hns, htr, i1, i2, i3]

theorem nsGo_pre_transient (t : Nat → Except String SearchResponse) :
    ∀ (fuel attempt k : Nat),
      k + 1 < (nsGo t attempt fuel).httpCalls →
      ∃ d, t (attempt + k) = .ok d ∧ isTransientStatus d.status = true := by
  intro fuel
  induction fuel with
  | zero =>
    intro a k hk
    simp [nsGo] at hk
  | succ f ih =>
    intro a k hk
    cases he : t a with
    | error e => rw [nsGo] at hk; simp [he] at hk
    | ok d =>
      cases h1 : isSearchSuccess d.status with
      | true => rw [nsGo] at hk; simp [he, h1] at hk
      | false =>
        cases h2 : isTransientStatus d.status with
        | false => rw [nsGo] at hk; simp [he, h1, h2] at hk
        | true =>
          rw [nsGo] at hk
          simp only [he, h1, h2, Bool.false_eq_true, if_false, if_true] at hk
          cases k with
          | zero => exact ⟨d, by rw [Nat.add_zero]; exact he, h2⟩
          | succ k' =>
            have hk' : k' + 1 < (nsGo t (a + 1) f).httpCalls := by
              simp at hk
              omega
            obtain ⟨d', hd', htr'⟩ := ih (a + 1) k' hk'
            refine ⟨d', ?_, htr'⟩
            rw [show a + (k' + 1) = a + 1 + k' by omega]
            exact hd'

theorem nearby_search_other (t : Nat → Except String SearchResponse)
    (d : SearchResponse) (hd : t 1 = .ok d)
    (h1 : isSearchSuccess d.status = false)
    (h2 : isTransientStatus d.status = false) :
    (nearby_search t).result = .ok d ∧
      (nearby_search t).httpCalls = 1 := by
  unfold nearby_search
  constructor <;> simp [nsGo, hd, h1, h2]

/-- C5 counterexample: `nearby_search` does catch no exceptions — when the
HTTP transport fails (a `requests` connection error, or an HTTP error status
turned into an exception by `raise_for_status`, functions.py lines 207-208),
the exception propagates to the caller after a single attempt.  "For every
input it never raises an exception" is therefore false. -/
theorem c5_counterexample :
    (nearby_search transErr).result = .error "conn reset" ∧
    (nearby_search transErr).httpCalls = 1 := by
  exact ⟨rfl, rfl⟩

/-- C5 (amended): provided every HTTP attempt completes without a transport
exception, `nearby_search` never raises: it makes at most 6 attempts,
sleeps `1.7^(a-1) + 0.25*a` before the retry that follows attempt `a`
(the sleeps are exactly the backoffs of attempts `1, 2, ...`), every
attempt that was followed by another was answered with one of the three
transient statuses, any other non-success status is returned to the caller
as data after exactly one attempt, and six transient answers in a row yield
the synthetic `{status FAILED, results []}` result after exactly 6 attempts
and 6 sleeps.  Transport-level exceptions, by contrast, propagate (see the
counterexample). -/
theorem c5_amended (t : Nat → Except String SearchResponse)
    (ht : ∀ k, ∃ d, t k = .ok d) :
    (∃ d, (nearby_search t).result = .ok d) ∧
    (nearby_search t).httpCalls ≤ 6 ∧
    ((nearby_search t).sleeps =
      (List.range (nearby_search t).sleeps.length).map
        (fun i => backoff_sleep (1 + i))) ∧
    (∀ k, k + 1 < (nearby_search t).httpCalls →
      ∃ d, t (1 + k) = .ok d ∧ isTransientStatus d.status = true) ∧
    (∀ d, t 1 = .ok d → isSearchSuccess d.status = false →
      isTransientStatus d.status = false →
      (nearby_search t).result = .ok d ∧
        (nearby_search t).httpCalls = 1) ∧
    ((∀ k, 1 ≤ k → k < 7 →
        ∃ d, t k = .ok d ∧ isTransientStatus d.status = true) →
      (nearby_search t).result = .ok ⟨"FAILED", [], none⟩ ∧
      (nearby_search t).httpCalls = 6 ∧
      (nearby_search t).sleeps.length = 6) := by
  refine ⟨nsGo_result_ok t ht 6 1, nsGo_calls_le t 6 1,
    nsGo_sleeps_shape t 6 1, nsGo_pre_transient t 6 1, ?_, ?_⟩
  · intro d hd h1 h2
    exact nearby_search_other t d hd h1 h2
  · intro hall
    exact nsGo_exhaust t 6 1 (fun k hk1 hk2 => hall k hk1 (by omega))

/-- Witness for the amended C5 on an always-throttled transport. -/
theorem c5_witness :
    (∀ k, ∃ d, transQuota k = .ok d) ∧
    (nearby_search transQuota).result = .ok ⟨"FAILED", [], none⟩ ∧
    (nearby_search transQuota).httpCalls = 6 ∧
    (nearby_search transQuota).sleeps.length = 6 := by
  have ht : ∀ k, ∃ d, transQuota k = .ok d :=
    fun k => ⟨⟨"OVER_QUERY_LIMIT", [], none⟩, rfl⟩
  refine ⟨ht, (c5_amended transQuota ht).2.2.2.2.2 ?_⟩
  intro k _ _
  exact ⟨⟨"OVER_QUERY_LIMIT", [], none⟩, rfl, rfl⟩

/-- C6: for every raw hit, `fetch_details` is reached exactly when the hit
has a truthy `place_id` that is not yet in the Dedup Ledger and whose name
passes the filter chain — the dedup test (line 557) runs before the name
filter (lines 562-565), which runs before the fetch (line 567), as captured
by `fetchGuard`; consequently, over any whole run the fetched pids are
pairwise distinct (at most one detail fetch per unique `external_id`) and
none of them was in the seed ledger. -/
theorem c6_detail_fetch_gate :
    (∀ (cfg : OConfig) (env : UpEnv) (kw : String) (clat clng : ℚ)
       (st : RunState) (n : Nat) (h : RawHit),
      (hitStep cfg env kw clat clng st n h).st.detailTrace =
        st.detailTrace ++ (fetchGuard st.seen h).toList) ∧
    (∀ (cfg : OConfig) (env : UpEnv) (centers : List (ℚ × ℚ))
       (existing : Finset String),
      (collect_for_state cfg env centers existing).st.detailTrace.Nodup ∧
      ∀ p ∈ (collect_for_state cfg env centers existing).st.detailTrace,
        p ∉ existing) := by
  constructor
  · intro cfg env kw clat clng st n h
    rcases hitStep_cases cfg env kw clat clng st n h with
      ⟨hg, heq⟩ | ⟨p, e, hg, _, heq⟩ | ⟨p, hg, _, heq⟩ <;> rw [heq, hg]
    · simp
    · rfl
    · obtain ⟨_, _, h3, _⟩ :=
        hitAppend_spec cfg kw clat clng st p (pyStrip h.name)
      rw [h3]
      rfl
  · intro cfg env centers existing
    obtain ⟨i1, _, i3⟩ := collect_dtrace cfg env centers existing
    exact ⟨i1, i3⟩

/-- Witness for C6 at a concrete hit and run. -/
theorem c6_witness :
    (hitStep cfgOne envC2 "kw" 0 0 (initState cfgOne ∅) 0
        (hitNamed "x")).st.detailTrace =
      (initState cfgOne ∅).detailTrace ++
        (fetchGuard (initState cfgOne ∅).seen (hitNamed "x")).toList ∧
    "x" ∈ (collect_for_state cfgOne envC2 [(0, 0)] ∅).st.detailTrace ∧
    "x" ∉ (∅ : Finset String) := by
  refine ⟨c6_detail_fetch_gate.1 cfgOne envC2 "kw" 0 0 _ 0 _, by decide, ?_⟩
  exact (c6_detail_fetch_gate.2 cfgOne envC2 [(0, 0)] ∅).2 "x" (by decide)

/-- C7 counterexample: at one center and keyword, page 1 yields one new
record and a token; page 2 repeats the same hit, so it yields zero new
records (the appended rows stay `["x"]`), and still carries a token.  The
claim says no further continuation page may be requested after that page —
yet the run's search trace shows a third request with pagetoken `t2`: the
abort test (line 550) looks at the center-wide running counter
`new_places_this_center`, which is 1, not at the page's own yield. -/
theorem c7_counterexample :
    (collect_for_state cfgOne envC7 [(0, 0)] ∅).st.searchTrace =
      [⟨0, 0, "kw", none⟩, ⟨0, 0, "kw", some "t1"⟩,
       ⟨0, 0, "kw", some "t2"⟩] ∧
    pids (collect_for_state cfgOne envC7 [(0, 0)] ∅).st.sheetRows =
      ["x"] := by
  refine ⟨by decide, by decide⟩

/-- C7 (amended): the pagination abort fires exactly when a page beyond the
first is reached while the center's running new-record count is still zero:
that page's results are dropped unprocessed, the loop ends, and no further
continuation request is issued (the state is returned untouched).  When the
center has already yielded new records, pagination continues while tokens
are present, even after a page that yields zero new records (see the
counterexample). -/
theorem c7_amended (cfg : OConfig) (env : UpEnv) (kw : String)
    (clat clng : ℚ) (fuel : Nat) (data : SearchResponse) (page_count : Nat)
    (st : RunState) (n : Nat) (hpc : 1 < page_count) (hn : n = 0) :
    pagesLoop cfg env kw clat clng fuel data page_count st n =
      ⟨st, n, .ok ()⟩ :=
  pagesLoop_abort cfg env kw clat clng fuel data page_count st n hpc hn

/-- Witness for the amended C7 at a concrete page-2 state. -/
theorem c7_witness :
    ((1 : Nat) < 2 ∧ (0 : Nat) = 0) ∧
    pagesLoop cfgOne envC7 "kw" 0 0 3 ⟨"OK", [hitNamed "x"], none⟩ 2
        (initState cfgOne ∅) 0 =
      ⟨initState cfgOne ∅, 0, .ok ()⟩ := by
  exact ⟨⟨by decide, rfl⟩,
    c7_amended cfgOne envC7 "kw" 0 0 3 ⟨"OK", [hitNamed "x"], none⟩ 2
      (initState cfgOne ∅) 0 (by decide) rfl⟩

/-- C8: a candidate center is skipped — state untouched, no search issued,
center not recorded as processed — exactly when overlap pruning is enabled
and some previously processed center whose new-record count reaches the
configured minimum (1 when `stop_after_new` is unset) lies within
`overlap_factor * radius` under the equirectangular planar distance (the
`sqrt` comparison is embedded squared); in the concrete scenario of two
centers 5 km apart with radius 25000 m and factor 0.6, the second center is
skipped exactly when the first yielded at least one new record. -/
theorem c8_overlap_pruning :
    (∀ (cfg : OConfig) (pr : List (ℚ × ℚ × Nat)) (a b : ℚ),
      shouldSkipCenter cfg pr a b = true ↔
        (cfg.skip_overlap_centers = true ∧ ∃ pc ∈ pr,
          overlapMin cfg ≤ pc.2.2 ∧
          dist_lt cfg.cosDeg a b pc.1 pc.2.1
            (cfg.overlap_factor * cfg.radius_m) = true)) ∧
    (∀ (cfg : OConfig) (env : UpEnv) (st : RunState) (c : ℚ × ℚ),
      shouldSkipCenter cfg st.processed c.1 c.2 = true →
      centerStep cfg env st c = ⟨st, .ok ()⟩) ∧
    shouldSkipCenter cfgC8 [(0, 0, 1)] (5000 / 111320) 0 = true ∧
    shouldSkipCenter cfgC8 [(0, 0, 0)] (5000 / 111320) 0 = false := by
  refine ⟨?_, ?_, ?_, ?_⟩
  · intro cfg pr a b
    simp [shouldSkipCenter, List.any_eq_true, Bool.and_eq_true,
      decide_eq_true_eq]
  · intro cfg env st c hskip
    unfold centerStep
    simp [hskip]
  · simp only [shouldSkipCenter, cfgC8, overlapMin, dist_lt,
      calculate_distance_sq, List.any_cons, List.any_nil,
      Bool.or_false, Bool.and_eq_true, decide_eq_true_eq]
    norm_num
  · simp only [shouldSkipCenter, cfgC8, overlapMin, dist_lt,
      calculate_distance_sq, List.any_cons, List.any_nil]
    norm_num

/-- Witness for C8: the second C8 center is within the skip distance of a
productive first center and `centerStep` leaves the state untouched. -/
theorem c8_witness :
    shouldSkipCenter cfgC8 [((0 : ℚ), (0 : ℚ), 1)] (5000 / 111320) 0 =
      true ∧
    centerStep cfgC8 envC8zero
        { initState cfgC8 ∅ with processed := [(0, 0, 1)] }
        ((5000 : ℚ) / 111320, 0) =
      ⟨{ initState cfgC8 ∅ with processed := [(0, 0, 1)] }, .ok ()⟩ := by
  refine ⟨c8_overlap_pruning.2.2.1, ?_⟩
  exact c8_overlap_pruning.2.1 cfgC8 envC8zero
    { initState cfgC8 ∅ with processed := [(0, 0, 1)] }
    ((5000 : ℚ) / 111320, 0) c8_overlap_pruning.2.2.1

/-- C9: the name filter accepts "Joe's Recording Studio", rejects
"Joe's Tattoo Studio", accepts "Joe's Tattoo & Recording"; in general a
lowercased name containing an exclusion term is rejected unless it also
contains a positive-override token, and every accepted name contains
"studio" together with a domain hint, or contains "recording", or contains
one of music/audio/mix/master. -/
theorem c9_name_filter :
    acceptName (pyLower (pyStrip "Joe\x27s Recording Studio")) = true ∧
    acceptName (pyLower (pyStrip "Joe\x27s Tattoo Studio")) = false ∧
    acceptName (pyLower (pyStrip "Joe\x27s Tattoo & Recording")) = true ∧
    (∀ nl, should_exclude nl = true → overrideAny nl = false →
      acceptName nl = false) ∧
    (∀ nl, acceptName nl = true →
      (strContains nl "studio" = true ∧
        INCLUDE_HINTS.any (fun h => strContains nl h) = true) ∨
      strContains nl "recording" = true ∨
      (["music", "audio", "mix", "master"] : List String).any
        (fun h => strContains nl h) = true) := by
  refine ⟨by decide, by decide, by decide, ?_, ?_⟩
  · intro nl he ho
    simp [acceptName, he, ho]
  · intro nl ha
    have h2 : likely_music_studio nl = true := by
      have h3 := ha
      unfold acceptName at h3
      exact ((Bool.and_eq_true _ _).mp h3).2
    unfold likely_music_studio at h2
    by_cases h0 : nl = ""
    · simp [h0] at h2
    · rw [if_neg h0] at h2
      cases hA : (strContains nl "studio" &&
          INCLUDE_HINTS.any fun h => strContains nl h) with
      | true => exact Or.inl ((Bool.and_eq_true _ _).mp hA)
      | false =>
        rw [hA] at h2
        simp only [Bool.false_eq_true, if_false] at h2
        cases hB : strContains nl "recording" with
        | true => exact Or.inr (Or.inl rfl)
        | false =>
          rw [hB] at h2
          simp only [Bool.false_eq_true, if_false] at h2
          cases hC : (["music", "audio", "mix", "master"] : List String).any
              (fun h => strContains nl h) with
          | true => exact Or.inr (Or.inr rfl)
          | false =>
            rw [hC] at h2
            simp at h2

/-- Witness for C9 applying the general filter facts at concrete names. -/
theorem c9_witness :
    (should_exclude "tattoo parlor" = true ∧
      overrideAny "tattoo parlor" = false ∧
      acceptName "tattoo parlor" = false) ∧
    (acceptName "music studio" = true ∧
      ((strContains "music studio" "studio" = true ∧
        INCLUDE_HINTS.any (fun h => strContains "music studio" h) = true) ∨
       strContains "music studio" "recording" = true ∨
       (["music", "audio", "mix", "master"] : List String).any
         (fun h => strContains "music studio" h) = true)) := by
  refine ⟨⟨by decide, by decide, ?_⟩, ⟨by decide, ?_⟩⟩
  · exact c9_name_filter.2.2.2.1 "tattoo parlor" (by decide) (by decide)
  · exact c9_name_filter.2.2.2.2 "music studio" (by decide)

/-- C10: when reading the existing `place_id` column fails with an
`HttpError`, `read_existing_place_ids` returns the empty set instead of
raising, so the run proceeds with an empty Dedup Ledger and re-appends a
row whose `external_id` ("x") already sits in the destination — the
destination then holds that id twice. -/
theorem c10_empty_ledger_on_error :
    read_existing_place_ids (.error "HttpError 500") = ∅ ∧
    pids ([rowC10] ++
      (collect_for_state cfgOne envC2 [(0, 0)]
        (read_existing_place_ids (.error "HttpError 500"))).st.sheetRows) =
      ["x", "x"] ∧
    ¬ (["x", "x"] : List String).Nodup := by
  refine ⟨rfl, by decide, by decide⟩
